import Mathlib

/-!
Verification of the `py-astrologer` core engines: a shallow embedding of the
aspect/orb policy engine, the stellium partitioner (both over `ℚ`, since they
only use field arithmetic and comparisons on ecliptic longitudes in degrees)
and the house-cusp engine (over `ℝ`, since it uses trigonometry).

Python floats are idealised as exact rationals / reals.  Python functions that
can raise (`math.acos` / `math.asin` on arguments outside `[-1, 1]`,
`deque.pop` on an empty deque, the `ValueError`s of `quadrant_cusps`) are
embedded as `Option`/`Except`-valued functions.  The unbounded Placidus
`while True` loop is embedded with an explicit fuel parameter; running out of
fuel is reported as a distinguished `noConverge` outcome so that statements
about (non-)termination can be made.
-/

namespace Astrologer

/-! ## Angular math utilities (external dependency `astropc.mathutils`)

The repository consumes these from the external `astropc` package; the spec
describes them as "shortest circular arc between two angles, normalize-to-range
reduction, angle difference with sign.  Assumed correct and available."
They are modelled here with those standard semantics, over `ℚ` for the
degree-valued versions and over `ℝ` for the radian-valued ones. -/

/-- Shortest circular arc between two angles, in arc-degrees. -/
def shortest_arc_deg (a b : ℚ) : ℚ :=
  let x := |a - b|
  if 180 < x then 360 - x else x

/-- Shortest circular arc between two angles, in radians. -/
noncomputable def shortest_arc_rad (a b : ℝ) : ℝ :=
  let x := |a - b|
  if Real.pi < x then 2 * Real.pi - x else x

/-- Signed difference of angles `b - a` in arc-degrees, accounting for
circular values: the forward difference from `a` to `b`, folded into
`(-180, 180]`. -/
def diff_angle (a b : ℚ) : ℚ :=
  let x := if b < a then b + 360 - a else b - a
  if 180 < x then x - 360 else x

/-- Reduce a radian value to the range `[0, 2π)`. -/
noncomputable def reduce_rad (x : ℝ) : ℝ :=
  x - 2 * Real.pi * ⌊x / (2 * Real.pi)⌋

/-! ## Chart objects (`astrologer/objects.py`) -/

/-- The fixed set of chart objects (`ChartObjectType`). -/
inductive ChartObjectType where
  | moon | sun | mercury | venus | mars | jupiter
  | saturn | uranus | neptune | pluto | node
  deriving DecidableEq, Repr

/-- Ecliptic coordinates of a body (`astropc.planets.EclipticPosition`);
only the longitude `lmbda` is read by the engines under verification. -/
structure EclipticPosition where
  lmbda : ℚ
  beta : ℚ := 0
  deriving DecidableEq, Repr

/-- Object position in chart (`ChartObjectInfo`). -/
structure ChartObjectInfo where
  type : ChartObjectType
  position : EclipticPosition
  daily_motion : ℚ := 0
  house : ℕ := 0
  deriving DecidableEq, Repr

/-! ## Aspects (`astrologer/aspects/aspects.py`) -/

/-- Classification of an aspect (`AspectType`, a `Flag`). -/
inductive AspectType where
  | major | minor | kepler
  deriving DecidableEq, Repr

/-- The bit assigned to each flag by `enum.auto()`: MAJOR = 1, MINOR = 2,
KEPLER = 4. -/
def AspectType.value : AspectType → ℕ
  | .major => 1
  | .minor => 2
  | .kepler => 4

/-- The 15 aspect kinds (`Aspect`). -/
inductive Aspect where
  | conjunction | vigintile | quindecile | semisextile | decile
  | sextile | semisquare | quintile | square | tridecile
  | trine | sesquiquadrate | biquintile | quincunx | opposition
  deriving DecidableEq, Repr

/-- Exact angular value of each aspect kind, arc-degrees (the `val` field). -/
def Aspect.val : Aspect → ℚ
  | .conjunction => 0
  | .vigintile => 18
  | .quindecile => 24
  | .semisextile => 30
  | .decile => 36
  | .sextile => 60
  | .semisquare => 45
  | .quintile => 72
  | .square => 90
  | .tridecile => 108
  | .trine => 120
  | .sesquiquadrate => 135
  | .biquintile => 144
  | .quincunx => 150
  | .opposition => 180

/-- Classification of each aspect kind (the `type` field). -/
def Aspect.type : Aspect → AspectType
  | .conjunction => .major
  | .vigintile => .kepler
  | .quindecile => .kepler
  | .semisextile => .minor
  | .decile => .kepler
  | .sextile => .major
  | .semisquare => .minor
  | .quintile => .kepler
  | .square => .major
  | .tridecile => .minor
  | .trine => .major
  | .sesquiquadrate => .minor
  | .biquintile => .kepler
  | .quincunx => .minor
  | .opposition => .major

/-- Enumeration order of `Aspect`, as iterated by `for asp in Aspect`. -/
def aspectOrder : List Aspect :=
  [.conjunction, .vigintile, .quindecile, .semisextile, .decile,
   .sextile, .semisquare, .quintile, .square, .tridecile,
   .trine, .sesquiquadrate, .biquintile, .quincunx, .opposition]

/-- Aspect details (`AspectInfo`). -/
structure AspectInfo where
  aspect : Aspect
  arc : ℚ
  delta : ℚ
  deriving DecidableEq, Repr

/-! ## Orbs methods (`astrologer/aspects/orbs.py`) -/

/-- The per-body moiety table of the `Dariot` class (`moieties` dict):
`none` for objects absent from the dict. -/
def moieties : ChartObjectType → Option ℚ
  | .moon => some 12
  | .sun => some 15
  | .mercury => some 7
  | .venus => some 7
  | .mars => some 8
  | .jupiter => some 9
  | .saturn => some 9
  | .uranus => some 6
  | .neptune => some 6
  | .pluto => some 5
  | .node => none

/-- `Dariot.default_moiety`. -/
def default_moiety : ℚ := 4

/-- `Dariot.get_moiety`: dictionary lookup with default. -/
def get_moiety (obj : ChartObjectType) : ℚ :=
  (moieties obj).getD default_moiety

/-- `Dariot.calculate_orb`: the average of the two moieties. -/
def calculate_orb (src dst : ChartObjectType) : ℚ :=
  (get_moiety src + get_moiety dst) / 2

/-- `Dariot.check_aspect`: match iff `|arc - exact| ≤ orb`. -/
def check_aspect (aspect : Aspect) (orb arc : ℚ) : Option AspectInfo :=
  let delta := |arc - aspect.val|
  if delta ≤ orb then some ⟨aspect, arc, delta⟩ else none

/-- The fixed `[min, max]` arc windows of the `DeVore` class (`ranges`). -/
def deVoreRanges : Aspect → ℚ × ℚ
  | .conjunction => (-10, 6)
  | .vigintile => (17.5, 18.5)
  | .quindecile => (23.5, 24.5)
  | .semisextile => (28, 31)
  | .decile => (35.5, 36.5)
  | .sextile => (56, 63)
  | .semisquare => (42, 49)
  | .quintile => (71.5, 72.5)
  | .square => (84, 96)
  | .tridecile => (107.5, 108.5)
  | .trine => (113, 125)
  | .sesquiquadrate => (132, 137)
  | .biquintile => (143.5, 144.5)
  | .quincunx => (148, 151)
  | .opposition => (174, 186)

/-- The three concrete orb policies.  `classicCombined` embeds the
`ClassicWithAspectRatio` class together with its two configurable
coefficients (defaults 0.6 and 0.5). -/
inductive OrbsMethod where
  | dariot
  | deVore
  | classicCombined (minor_coeff kepler_coeff : ℚ)
  deriving DecidableEq, Repr

/-- `is_aspect` of each concrete policy.  All three first resolve the
optional `arc` argument (computing the shortest arc of the two stored
longitudes only when it is absent) and then apply their own rule. -/
def is_aspect (m : OrbsMethod) (source target : ChartObjectInfo)
    (aspect : Aspect) (arc? : Option ℚ) : Option AspectInfo :=
  let arc := arc?.getD
    (shortest_arc_deg source.position.lmbda target.position.lmbda)
  match m with
  | .dariot =>
      check_aspect aspect (calculate_orb source.type target.type) arc
  | .deVore =>
      let range := deVoreRanges aspect
      if range.1 ≤ arc ∧ range.2 ≥ arc then
        some ⟨aspect, arc, |arc - aspect.val|⟩
      else none
  | .classicCombined minor_coeff kepler_coeff =>
      let orb := calculate_orb source.type target.type
      let orb :=
        if aspect.type = .minor then orb * minor_coeff
        else if aspect.type = .kepler then orb * kepler_coeff
        else orb
      check_aspect aspect orb arc

/-! ## `find_closest_aspect` (`astrologer/aspects/utils.py`) -/

/-- One step of the `for asp in Aspect` loop body of `find_closest_aspect`. -/
def closestStep (m : OrbsMethod) (source target : ChartObjectInfo) (arc : ℚ)
    (type_flags : ℕ) (closest : Option AspectInfo) (asp : Aspect) :
    Option AspectInfo :=
  if asp.type.value &&& type_flags ≠ 0 then
    match is_aspect m source target asp (some arc) with
    | none => closest
    | some info =>
        match closest with
        | none => some info
        | some c => if c.delta > info.delta then some info else some c
  else closest

/-- `find_closest_aspect`.  The Python signature has the defaults
`orbs_method = None` (resolved to `ClassicWithAspectRatio()`, i.e.
coefficients 0.6 and 0.5) and `type_flags = AspectType.MAJOR.value`;
callers relying on the defaults are modelled by
`find_closest_aspect_default` below. -/
def find_closest_aspect (source target : ChartObjectInfo)
    (orbs_method : Option OrbsMethod) (type_flags : ℕ) : Option AspectInfo :=
  let m := orbs_method.getD (.classicCombined 0.6 0.5)
  let arc := shortest_arc_deg source.position.lmbda target.position.lmbda
  aspectOrder.foldl (closestStep m source target arc type_flags) none

/-- A call of `find_closest_aspect` that lets both optional arguments take
their default values. -/
def find_closest_aspect_default (source target : ChartObjectInfo) :
    Option AspectInfo :=
  find_closest_aspect source target none AspectType.major.value

/-! ## Stellium partitioner (`iter_stelliums` in `astrologer/aspects/utils.py`) -/

/-- Insert an object into a list sorted by ascending longitude, before the
first strictly-greater element (so equal keys keep their relative order). -/
def insertByLongitude (o : ChartObjectInfo) :
    List ChartObjectInfo → List ChartObjectInfo
  | [] => [o]
  | x :: xs =>
      if o.position.lmbda ≤ x.position.lmbda then o :: x :: xs
      else x :: insertByLongitude o xs

/-- `sorted(objects, key=attrgetter("position.lmbda"))`: Python's `sorted`
is a stable comparison sort; it is modelled by stable insertion sort. -/
def sortedByLongitude : List ChartObjectInfo → List ChartObjectInfo
  | [] => []
  | x :: xs => insertByLongitude x (sortedByLongitude xs)

/-- The seam-rotation loop of `iter_stelliums` (`for _ in range(len(...))`
over the working deque).  Each round pops the first and the last element;
`none` models the uncaught `IndexError` of a `popleft`/`pop` on an empty
deque. -/
def seamRotate (gap : ℚ) : ℕ → List ChartObjectInfo →
    Option (List ChartObjectInfo)
  | 0, deq => some deq
  | _ + 1, [] => none
  | _ + 1, [_] => none
  | n + 1, first :: r :: rs =>
      let last := (r :: rs).getLast (by simp)
      let mid := (r :: rs).dropLast
      if shortest_arc_deg first.position.lmbda last.position.lmbda ≤ gap then
        seamRotate gap n (last :: first :: mid)
      else
        some (first :: (mid ++ [last]))

/-- The left-to-right grouping scan of `iter_stelliums`: extend the current
`group` while the signed forward difference to the next body is at most
`gap`, close it otherwise, and always close the final group. -/
def scanGroups (gap : ℚ) (group : List ChartObjectInfo) :
    List ChartObjectInfo → List (List ChartObjectInfo)
  | [] => []
  | [curr] => [group ++ [curr]]
  | curr :: next :: rest =>
      if gap < diff_angle curr.position.lmbda next.position.lmbda then
        (group ++ [curr]) :: scanGroups gap [] (next :: rest)
      else
        scanGroups gap (group ++ [curr]) (next :: rest)

/-- `iter_stelliums` (the lazy generator materialised into a list of
groups); `none` models the uncaught `IndexError` raised inside the
seam-rotation loop. -/
def iter_stelliums (objs : List ChartObjectInfo) (gap : ℚ) :
    Option (List (List ChartObjectInfo)) :=
  let sorted_objs := sortedByLongitude objs
  (seamRotate gap sorted_objs.length sorted_objs).map (scanGroups gap [])

/-! ## Real-valued helpers for the house engine -/

/-- `math.atan2`, with the usual quadrant conventions. -/
noncomputable def atan2 (y x : ℝ) : ℝ :=
  if 0 < x then Real.arctan (y / x)
  else if x < 0 then
    if 0 ≤ y then Real.arctan (y / x) + Real.pi
    else Real.arctan (y / x) - Real.pi
  else
    if 0 < y then Real.pi / 2
    else if y < 0 then -(Real.pi / 2)
    else 0

/-- `math.degrees`. -/
noncomputable def degrees (x : ℝ) : ℝ := x * 180 / Real.pi

/-- `math.acos`, which raises `ValueError` outside `[-1, 1]`. -/
noncomputable def acosOpt (x : ℝ) : Option ℝ :=
  if x < -1 ∨ 1 < x then none else some (Real.arccos x)

/-- `math.asin`, which raises `ValueError` outside `[-1, 1]`. -/
noncomputable def asinOpt (x : ℝ) : Option ℝ :=
  if x < -1 ∨ 1 < x then none else some (Real.arcsin x)

/-- Degrees-to-radians conversion (`math.radians`), used to state facts
about inputs given in arc-degrees. -/
noncomputable def degRad (d : ℚ) : ℝ := (d : ℝ) * Real.pi / 180

/-! ## Sensitive points (`astrologer/points.py`) -/

/-- `midheaven`: `atan2(tan(ramc), cos(eps))`, quadrant-corrected, reduced
to `[0, 2π)`. -/
noncomputable def midheaven (ramc eps : ℝ) : ℝ :=
  let x := atan2 (Real.tan ramc) (Real.cos eps)
  let x := if x < 0 then x + Real.pi else x
  let x := if Real.sin ramc < 0 then x + Real.pi else x
  reduce_rad x

/-- `ascendant`. -/
noncomputable def ascendant (ramc eps theta : ℝ) : ℝ :=
  reduce_rad (atan2 (Real.cos ramc)
    (-Real.sin ramc * Real.cos eps - Real.tan theta * Real.sin eps))

/-! ## House cusps (`astrologer/houses.py`)

The module constants `_R30` … `_R150` are stored in the source as 16-digit
double literals; they are the IEEE-754 approximations of `π/6`, `π/3`,
`π/2`, `2π/3` and `5π/6`, and are idealised here by those exact values. -/

noncomputable def _R30 : ℝ := Real.pi / 6
noncomputable def _R60 : ℝ := Real.pi / 3
noncomputable def _R90 : ℝ := Real.pi / 2
noncomputable def _R120 : ℝ := 2 * Real.pi / 3
noncomputable def _R150 : ℝ := 5 * Real.pi / 6

/-- `_PLACIDUS_ARGS`: per-house `(index-tag, divisor, seed offset)`. -/
noncomputable def _PLACIDUS_ARGS : List (ℕ × ℝ × ℝ) :=
  [(10, 3, _R30), (11, 1.5, _R60), (1, 1.5, _R120), (2, 3, _R150)]

/-- `_PLAC_DELTA = 1e-4`. -/
noncomputable def _PLAC_DELTA : ℝ := 1 / 10000

/-- `_TOPOCENTRIC_ARGS`. -/
noncomputable def _TOPOCENTRIC_ARGS : List (ℝ × ℝ) :=
  [(-_R60, 1), (-_R30, 2), (_R30, 2), (_R60, 1)]

/-- The nine supported house systems (`HousesSystem`). -/
inductive HousesSystem where
  | placidus | koch | regiomontanus | campanus | topocentric
  | morinus | equal_signcusp | equal_asc | equal_mc
  deriving DecidableEq, Repr

/-- Outcomes of the Placidus fixed-point loop other than convergence:
`acosDomain` models the `ValueError` raised by `math.acos` on an argument
outside `[-1, 1]`; `noConverge` is the fuel-exhaustion marker standing for
an execution of the unbounded Python loop that is still running. -/
inductive PlacFail where
  | acosDomain
  | noConverge
  deriving DecidableEq, Repr

/-- The `while True` loop of `placidus_cusps` for one house, with fuel.
On convergence the result is `last_x` — the iterate *before* the final
update, exactly as in the source, where `break` fires before
`last_x = x`. -/
noncomputable def plac_loop (k r f tt : ℝ) : ℕ → ℝ → Except PlacFail ℝ
  | 0, _ => .error .noConverge
  | n + 1, last_x =>
      match acosOpt (k * Real.sin last_x * tt) with
      | none => .error .acosDomain
      | some a =>
          let x := r - k * a / f
          if |shortest_arc_rad x last_x| < _PLAC_DELTA then .ok last_x
          else plac_loop k r f tt n x

/-- `placidus_cusps`: iterate over `_PLACIDUS_ARGS`, pick the sign and base
from the house tag, run the fixed-point loop seeded at `x0 + ramc`, and
project each converged angle onto the ecliptic. -/
noncomputable def placidus_cusps (fuel : ℕ) (ramc eps theta : ℝ) :
    Except PlacFail (List ℝ) :=
  let tt := Real.tan theta * Real.tan eps
  let cs_eps := Real.cos eps
  _PLACIDUS_ARGS.mapM fun arg =>
    let i := arg.1
    let f := arg.2.1
    let x0 := arg.2.2
    let k : ℝ := if i = 10 ∨ i = 11 then -1 else 1
    let r : ℝ := if i = 10 ∨ i = 11 then ramc else ramc + Real.pi
    (plac_loop k r f tt fuel (x0 + ramc)).map fun lx =>
      reduce_rad (atan2 (Real.sin lx) (cs_eps * Real.cos lx))

/-- `koch_cusps`; `none` models the `ValueError` of `math.asin` when
`tan θ · tan(asin(sin mc · sin ε))` falls outside `[-1, 1]`. -/
noncomputable def koch_cusps (ramc eps theta mc : ℝ) : Option (List ℝ) :=
  let tn_theta := Real.tan theta
  let sn_eps := Real.sin eps
  let sn_mc := Real.sin mc
  (asinOpt (sn_mc * sn_eps)).bind fun inner =>
    (asinOpt (tn_theta * Real.tan inner)).map fun k =>
      let k1 := k / 3
      let k2 := k1 * 2
      [-_R60 - k2, -_R30 - k1, _R30 + k1, _R60 + k2].map fun x =>
        ascendant (ramc + x) eps theta

/-- `regiomontanus_cusps`. -/
noncomputable def regiomontanus_cusps (ramc eps theta : ℝ) : List ℝ :=
  let tn_theta := Real.tan theta
  [_R30, _R60, _R120, _R150].map fun h =>
    let rh := ramc + h
    let r := atan2 (Real.sin h * tn_theta) (Real.cos rh)
    reduce_rad (atan2 (Real.cos r * Real.tan rh) (Real.cos (r + eps)))

/-- `campanus_cusps`; `none` models the `ValueError` of `math.asin`
(its argument `sin θ · sin h` in fact always lies in `[-1, 1]`). -/
noncomputable def campanus_cusps (ramc eps theta : ℝ) : Option (List ℝ) :=
  let rm90 := ramc + _R90
  let sn_the := Real.sin theta
  let cs_the := Real.cos theta
  [_R30, _R60, _R120, _R150].mapM fun h =>
    let sn_h := Real.sin h
    (asinOpt (sn_the * sn_h)).map fun a =>
      let d := rm90 - atan2 (Real.cos h) (sn_h * cs_the)
      let c := atan2 (Real.tan a) (Real.cos d)
      reduce_rad (atan2 (Real.tan d * Real.cos c) (Real.cos (c + eps)))

/-- `topocentric_cusps`. -/
noncomputable def topocentric_cusps (ramc eps theta : ℝ) : List ℝ :=
  let tn_the := Real.tan theta
  _TOPOCENTRIC_ARGS.map fun arg =>
    ascendant (ramc + arg.1) eps (atan2 (arg.2 * tn_the) 3)

/-- Failures of `quadrant_cusps`: the two `ValueError`s it raises itself
(`highLatitude`, `notQuadrant`), the math-domain `ValueError`s that escape
from the base generators, the fuel-exhaustion marker of the Placidus loop,
and an `IndexError` marker for a base list shorter than 4 (dead code for
these generators). -/
inductive QErr where
  | highLatitude
  | notQuadrant
  | asinDomain
  | acosDomain
  | noConverge
  | indexError
  deriving DecidableEq, Repr

/-- The per-system dispatch of `quadrant_cusps` (the `match system` block):
the parameterised 4-base-angle generator. -/
noncomputable def quadrant_base (fuel : ℕ) (system : HousesSystem)
    (ramc eps theta mc : ℝ) : Except QErr (List ℝ) :=
  match system with
  | .koch =>
      match koch_cusps ramc eps theta mc with
      | some l => .ok l
      | none => .error .asinDomain
  | .placidus =>
      match placidus_cusps fuel ramc eps theta with
      | .ok l => .ok l
      | .error .acosDomain => .error .acosDomain
      | .error .noConverge => .error .noConverge
  | .regiomontanus => .ok (regiomontanus_cusps ramc eps theta)
  | .campanus =>
      match campanus_cusps ramc eps theta with
      | some l => .ok l
      | none => .error .asinDomain
  | .topocentric => .ok (topocentric_cusps ramc eps theta)
  | _ => .error .notQuadrant

/-- `quadrant_cusps`: the latitude guard, resolution of the optional `mc`
and `asc`, per-system dispatch, and the shared 4-angles-to-12-cusps
expansion returning arc-degrees. -/
noncomputable def quadrant_cusps (fuel : ℕ) (system : HousesSystem)
    (ramc eps theta : ℝ) (asc? mc? : Option ℝ) : Except QErr (List ℝ) :=
  if |theta| > _R90 - |eps| then .error .highLatitude
  else
    let mc := mc?.getD (midheaven ramc eps)
    let asc := asc?.getD (ascendant ramc eps theta)
    match quadrant_base fuel system ramc eps theta mc with
    | .error e => .error e
    | .ok base =>
        match base with
        | b0 :: b1 :: b2 :: b3 :: _ =>
            .ok ([asc, b2, b3,
                  reduce_rad (mc + Real.pi),
                  reduce_rad (b0 + Real.pi),
                  reduce_rad (b1 + Real.pi),
                  reduce_rad (asc + Real.pi),
                  reduce_rad (b2 + Real.pi),
                  reduce_rad (b3 + Real.pi),
                  mc, b0, b1].map degrees)
        | _ => .error .indexError

/-- The five quadrant systems. -/
def quadrantSystems : List HousesSystem :=
  [.placidus, .koch, .regiomontanus, .campanus, .topocentric]

/-- The shared 4-base-angles-to-12-cusps expansion described by the spec
(houses 1..12, in radians, before the final degree conversion). -/
noncomputable def quadrant_expand (asc mc b0 b1 b2 b3 : ℝ) : List ℝ :=
  [asc, b2, b3,
   reduce_rad (mc + Real.pi),
   reduce_rad (b0 + Real.pi),
   reduce_rad (b1 + Real.pi),
   reduce_rad (asc + Real.pi),
   reduce_rad (b2 + Real.pi),
   reduce_rad (b3 + Real.pi),
   mc, b0, b1]

/-! ## Spec-side model of the (amended) Placidus description

These definitions follow the spec's wording: for each of the four base
houses solve `x = r ∓ acos(k · sin(x) · tanθ·tanε) / f` by fixed-point
iteration from the per-house seed, with the `∓` resolved per house group
(`k = −1, r = ramc` for the first two entries, `k = +1, r = ramc + π` for
the last two), stopping when two successive values differ (shortest-arc)
by less than `1e-4`, then projecting onto the ecliptic. -/

/-- Spec-side fixed-point iteration for the `k = −1` houses:
`x = r + acos(−(sin x · tanθ tanε)) / f`. -/
noncomputable def spec_plac_iter_neg (r f tt : ℝ) : ℕ → ℝ → Except PlacFail ℝ
  | 0, _ => .error .noConverge
  | n + 1, last =>
      match acosOpt (-(Real.sin last * tt)) with
      | none => .error .acosDomain
      | some a =>
          let x := r + a / f
          if |shortest_arc_rad x last| < 1 / 10000 then .ok last
          else spec_plac_iter_neg r f tt n x

/-- Spec-side fixed-point iteration for the `k = +1` houses:
`x = r − acos(sin x · tanθ tanε) / f`. -/
noncomputable def spec_plac_iter_pos (r f tt : ℝ) : ℕ → ℝ → Except PlacFail ℝ
  | 0, _ => .error .noConverge
  | n + 1, last =>
      match acosOpt (Real.sin last * tt) with
      | none => .error .acosDomain
      | some a =>
          let x := r - a / f
          if |shortest_arc_rad x last| < 1 / 10000 then .ok last
          else spec_plac_iter_pos r f tt n x

/-- Spec-side reading of the (amended) Placidus algorithm: house 11 with
divisor 3 and seed 30°, house 12 with divisor 1.5 and seed 60° (both with
`k = −1, r = ramc`), house 2 with divisor 1.5 and seed 120°, house 3 with
divisor 3 and seed 150° (both with `k = +1, r = ramc + π`), each converged
angle projected via `atan2(sin x, cos ε · cos x)` and reduced to
`[0, 2π)`. -/
noncomputable def spec_placidus_cusps (fuel : ℕ) (ramc eps theta : ℝ) :
    Except PlacFail (List ℝ) :=
  let tt := Real.tan theta * Real.tan eps
  let proj : ℝ → ℝ := fun x =>
    reduce_rad (atan2 (Real.sin x) (Real.cos eps * Real.cos x))
  do
    let c11 ← spec_plac_iter_neg ramc 3 tt fuel (Real.pi / 6 + ramc)
    let c12 ← spec_plac_iter_neg ramc 1.5 tt fuel (Real.pi / 3 + ramc)
    let c2 ← spec_plac_iter_pos (ramc + Real.pi) 1.5 tt fuel
      (2 * Real.pi / 3 + ramc)
    let c3 ← spec_plac_iter_pos (ramc + Real.pi) 3 tt fuel
      (5 * Real.pi / 6 + ramc)
    return [proj c11, proj c12, proj c2, proj c3]

/-- The claim's sign rule: `k = −1` exactly when the house tag is in
`{10, 11}`, else `k = +1`. -/
def specKSign (tag : ℕ) : ℤ := if tag = 10 ∨ tag = 11 then -1 else 1

/-- One update of the Placidus fixed-point loop, as a partial step
function: `none` models the `math.acos` domain `ValueError`. -/
noncomputable def plac_step (k r f tt : ℝ) (x : ℝ) : Option ℝ :=
  (acosOpt (k * Real.sin x * tt)).map fun a => r - k * a / f

/-- The iterate sequence of the Placidus loop: `plac_orbit k r f tt x0 m`
is the `m`-th iterate when the first `m` steps all stay inside the `acos`
domain, `none` otherwise. -/
noncomputable def plac_orbit (k r f tt x0 : ℝ) : ℕ → Option ℝ
  | 0 => some x0
  | m + 1 => (plac_orbit k r f tt x0 m).bind (plac_step k r f tt)

/-! ## Analysis helpers for `find_closest_aspect` -/

/-- The comparison step of `find_closest_aspect` on a reported match:
keep the old candidate unless the new delta is strictly smaller. -/
def pickCloser (closest : Option AspectInfo) (info : AspectInfo) :
    Option AspectInfo :=
  match closest with
  | none => some info
  | some c => if c.delta > info.delta then some info else some c

/-- The matches `find_closest_aspect` ranges over: the policy's verdicts on
the aspect kinds (in enumeration order) whose classification bit intersects
`flags`, each evaluated at the one precomputed shortest arc. -/
def aspectMatches (m : OrbsMethod) (s t : ChartObjectInfo) (flags : ℕ) :
    List AspectInfo :=
  (aspectOrder.filter fun a => decide (a.type.value &&& flags ≠ 0)).filterMap
    fun a => is_aspect m s t a
      (some (shortest_arc_deg s.position.lmbda t.position.lmbda))

/-- A Moon at longitude 310° (a concrete test value from the repository). -/
def moon310 : ChartObjectInfo := ⟨.moon, ⟨310, 0⟩, 0, 0⟩

/-- A Sun at longitude 312° (a concrete test value from the repository). -/
def sun312 : ChartObjectInfo := ⟨.sun, ⟨312, 0⟩, 0, 0⟩

theorem foldl_closestStep_eq (m : OrbsMethod) (s t : ChartObjectInfo)
    (arc : ℚ) (flags : ℕ) :
    ∀ (L : List Aspect) (acc : Option AspectInfo),
      L.foldl (closestStep m s t arc flags) acc =
        ((L.filter fun a => decide (a.type.value &&& flags ≠ 0)).filterMap
          (fun a => is_aspect m s t a (some arc))).foldl pickCloser acc := by
  intro L
  induction L with
  | nil => intro acc; rfl
  | cons a L' ih =>
      intro acc
      rw [List.foldl_cons, List.filter_cons]
      by_cases hb : a.type.value &&& flags ≠ 0
      · rw [if_pos (decide_eq_true hb), List.filterMap_cons]
        cases hia : is_aspect m s t a (some arc) with
        | none =>
            have hstep : closestStep m s t arc flags acc a = acc := by
              simp [closestStep, hb, hia]
            rw [ih, hstep]
        | some info =>
            have hstep : closestStep m s t arc flags acc a
                = pickCloser acc info := by
              simp [closestStep, hb, hia, pickCloser]
            rw [ih, hstep]
            rfl
      · rw [if_neg (by simpa using hb)]
        have hstep : closestStep m s t arc flags acc a = acc := by
          simp [closestStep, hb]
        rw [ih, hstep]

theorem foldl_pickCloser_isSome :
    ∀ (ms : List AspectInfo) (c : AspectInfo),
      (ms.foldl pickCloser (some c)).isSome := by
  intro ms
  induction ms with
  | nil => intro c; rfl
  | cons x rest ih =>
      intro c
      simp only [List.foldl_cons, pickCloser]
      by_cases h : c.delta > x.delta
      · simpa [h] using ih x
      · simpa [h] using ih c

theorem foldl_pickCloser_none_iff :
    ∀ (ms : List AspectInfo),
      ms.foldl pickCloser none = none ↔ ms = [] := by
  intro ms
  cases ms with
  | nil => simp
  | cons x rest =>
      simp only [List.foldl_cons, pickCloser]
      constructor
      · intro h
        have := foldl_pickCloser_isSome rest x
        rw [h] at this
        cases this
      · intro h
        cases h

theorem foldl_pickCloser_mem :
    ∀ (ms : List AspectInfo) (acc : Option AspectInfo) (i : AspectInfo),
      ms.foldl pickCloser acc = some i → acc = some i ∨ i ∈ ms := by
  intro ms
  induction ms with
  | nil => intro acc i h; exact Or.inl h
  | cons x rest ih =>
      intro acc i h
      simp only [List.foldl_cons] at h
      rcases ih (pickCloser acc x) i h with h' | h'
      · cases acc with
        | none =>
            simp only [pickCloser] at h'
            right
            simp [Option.some.inj h']
        | some c =>
            simp only [pickCloser] at h'
            by_cases hd : c.delta > x.delta
            · rw [if_pos hd] at h'
              right
              simp [Option.some.inj h']
            · rw [if_neg hd] at h'
              exact Or.inl h'
      · right
        exact List.mem_cons_of_mem x h'

theorem foldl_pickCloser_min :
    ∀ (ms : List AspectInfo) (acc : Option AspectInfo) (i : AspectInfo),
      ms.foldl pickCloser acc = some i →
        (∀ j ∈ ms, i.delta ≤ j.delta) ∧
        (∀ c, acc = some c → i.delta ≤ c.delta) := by
  intro ms
  induction ms with
  | nil =>
      intro acc i h
      refine ⟨by simp, ?_⟩
      intro c hc
      rw [hc] at h
      simp only [List.foldl_nil] at h
      rw [Option.some.inj h]
  | cons x rest ih =>
      intro acc i h
      simp only [List.foldl_cons] at h
      obtain ⟨hrest, hacc⟩ := ih (pickCloser acc x) i h
      have hx : i.delta ≤ x.delta := by
        cases acc with
        | none => exact hacc x rfl
        | some c =>
            simp only [pickCloser] at hacc
            by_cases hd : c.delta > x.delta
            · exact hacc x (by rw [if_pos hd])
            · exact le_trans (hacc c (by rw [if_neg hd])) (not_lt.mp hd)
      refine ⟨?_, ?_⟩
      · intro j hj
        rcases List.mem_cons.mp hj with rfl | hj'
        · exact hx
        · exact hrest j hj'
      · intro c hc
        subst hc
        simp only [pickCloser] at hacc
        by_cases hd : c.delta > x.delta
        · exact le_trans hx (le_of_lt hd)
        · exact hacc c (by rw [if_neg hd])

theorem foldl_pickCloser_first :
    ∀ (ms : List AspectInfo) (acc : Option AspectInfo) (i : AspectInfo),
      ms.foldl pickCloser acc = some i →
        acc = some i ∨
        ∃ pre post, ms = pre ++ i :: post ∧
          (∀ j ∈ pre, i.delta < j.delta) ∧
          (∀ c, acc = some c → i.delta < c.delta) := by
  intro ms
  induction ms with
  | nil => intro acc i h; exact Or.inl h
  | cons x rest ih =>
      intro acc i h
      simp only [List.foldl_cons] at h
      rcases ih (pickCloser acc x) i h with h' | h'
      · cases acc with
        | none =>
            simp only [pickCloser] at h'
            refine Or.inr ⟨[], rest, ?_, by simp, by simp⟩
            rw [Option.some.inj h']
            rfl
        | some c =>
            simp only [pickCloser] at h'
            by_cases hd : c.delta > x.delta
            · rw [if_pos hd] at h'
              have hx : x = i := Option.some.inj h'
              subst hx
              refine Or.inr ⟨[], rest, by simp, by simp, ?_⟩
              intro c' hc'
              rw [← Option.some.inj hc']
              exact hd
            · rw [if_neg hd] at h'
              exact Or.inl h'
      · obtain ⟨pre, post, hms, hpre, haccs⟩ := h'
        have hxi : i.delta < x.delta ∧ ∀ c, acc = some c → i.delta < c.delta := by
          cases acc with
          | none =>
              have := haccs x (by simp [pickCloser])
              exact ⟨this, by simp⟩
          | some c =>
              simp only [pickCloser] at haccs
              by_cases hd : c.delta > x.delta
              · have hix := haccs x (by rw [if_pos hd])
                exact ⟨hix, fun c' hc' => by
                  rw [← Option.some.inj hc']
                  exact lt_trans hix hd⟩
              · have hic := haccs c (by rw [if_neg hd])
                exact ⟨lt_of_lt_of_le hic (not_lt.mp hd),
                  fun c' hc' => by rw [← Option.some.inj hc']; exact hic⟩
        refine Or.inr ⟨x :: pre, post, by rw [hms, List.cons_append], ?_, hxi.2⟩
        intro j hj
        rcases List.mem_cons.mp hj with rfl | hj'
        · exact hxi.1
        · exact hpre j hj'

theorem check_aspect_aspect_eq :
    ∀ (a : Aspect) (orb arc : ℚ) (i : AspectInfo),
      check_aspect a orb arc = some i → i.aspect = a := by
  intro a orb arc i h
  simp only [check_aspect] at h
  split at h
  · rw [← Option.some.inj h]
  · cases h

/-- Every concrete policy reports the aspect kind it was asked about. -/
theorem is_aspect_reports_queried_kind :
    ∀ (m : OrbsMethod) (s t : ChartObjectInfo) (a : Aspect)
      (arc? : Option ℚ) (i : AspectInfo),
      is_aspect m s t a arc? = some i → i.aspect = a := by
  intro m s t a arc? i h
  cases m with
  | dariot =>
      simp only [is_aspect] at h
      exact check_aspect_aspect_eq _ _ _ _ h
  | deVore =>
      simp only [is_aspect] at h
      split at h
      · rw [← Option.some.inj h]
      · cases h
  | classicCombined mc kc =>
      simp only [is_aspect] at h
      exact check_aspect_aspect_eq _ _ _ _ h

/-! ## Theorems -/

/-- C7: for every aspect kind and every arc, the range-table (DeVore)
policy reports a match iff the arc falls within that kind's literal
`[min, max]` window, returning delta `|arc − exact value|` on a match; the
windows for Conjunction, Square and Opposition are `[−10, 6]`, `[84, 96]`
and `[174, 186]` verbatim. -/
theorem deVore_window_characterisation :
    ∀ (s t : ChartObjectInfo) (a : Aspect) (arc : ℚ),
      (is_aspect .deVore s t a (some arc) =
        if (deVoreRanges a).1 ≤ arc ∧ arc ≤ (deVoreRanges a).2 then
          some ⟨a, arc, |arc - a.val|⟩
        else none)
      ∧ deVoreRanges .conjunction = (-10, 6)
      ∧ deVoreRanges .square = (84, 96)
      ∧ deVoreRanges .opposition = (174, 186) := by
  intro s t a arc
  refine ⟨?_, rfl, rfl, rfl⟩
  simp only [is_aspect, Option.getD, ge_iff_le]

/-- C5: `find_closest_aspect` computes the shortest arc once and folds the
strict-`>` comparison over the policy's verdicts on exactly those aspect
kinds whose classification bit intersects `type_flags`, in enumeration
order (first conjunct); it returns `none` iff no considered kind matches
(second conjunct); any returned match is one of the considered matches,
carries a kind whose classification bit intersects the filter, has the
smallest delta among all matches, and is the first-enumerated among the
tied minima, every earlier match having strictly greater delta (third
conjunct); and the defaults are Major-only flags with the
`ClassicWithAspectRatio` policy (fourth conjunct). -/
theorem find_closest_aspect_correct :
    ∀ (m? : Option OrbsMethod) (s t : ChartObjectInfo) (flags : ℕ)
      (i : AspectInfo),
      (find_closest_aspect s t m? flags =
        (aspectMatches (m?.getD (.classicCombined 0.6 0.5)) s t flags).foldl
          pickCloser none)
      ∧ (find_closest_aspect s t m? flags = none ↔
          aspectMatches (m?.getD (.classicCombined 0.6 0.5)) s t flags = [])
      ∧ (find_closest_aspect s t m? flags = some i →
          i ∈ aspectMatches (m?.getD (.classicCombined 0.6 0.5)) s t flags
          ∧ i.aspect.type.value &&& flags ≠ 0
          ∧ (∀ j ∈ aspectMatches (m?.getD (.classicCombined 0.6 0.5)) s t
              flags, i.delta ≤ j.delta)
          ∧ ∃ pre post,
              aspectMatches (m?.getD (.classicCombined 0.6 0.5)) s t flags
                = pre ++ i :: post
              ∧ ∀ j ∈ pre, i.delta < j.delta)
      ∧ find_closest_aspect_default s t
          = find_closest_aspect s t (some (.classicCombined 0.6 0.5))
              AspectType.major.value := by
  intro m? s t flags i
  have hfold : find_closest_aspect s t m? flags =
      (aspectMatches (m?.getD (.classicCombined 0.6 0.5)) s t flags).foldl
        pickCloser none := by
    unfold find_closest_aspect aspectMatches
    exact foldl_closestStep_eq _ _ _ _ _ _ _
  refine ⟨hfold, ?_, ?_, rfl⟩
  · rw [hfold]
    exact foldl_pickCloser_none_iff _
  · intro hsome
    rw [hfold] at hsome
    have hmem : i ∈ aspectMatches (m?.getD (.classicCombined 0.6 0.5)) s t
        flags := by
      rcases foldl_pickCloser_mem _ _ _ hsome with h | h
      · cases h
      · exact h
    have hbit : i.aspect.type.value &&& flags ≠ 0 := by
      rcases List.mem_filterMap.mp hmem with ⟨a, ha, hia⟩
      have := is_aspect_reports_queried_kind _ _ _ _ _ _ hia
      rw [this]
      exact of_decide_eq_true (List.mem_filter.mp ha).2
    have hmin := (foldl_pickCloser_min _ _ _ hsome).1
    have hfirst := foldl_pickCloser_first _ _ _ hsome
    refine ⟨hmem, hbit, hmin, ?_⟩
    rcases hfirst with h | ⟨pre, post, hsplit, hpre, _⟩
    · cases h
    · exact ⟨pre, post, hsplit, hpre⟩

/-- Witness for C5: the theorem applied to the Moon-at-310°/Sun-at-312°
pair from the repository's tests, with the Major filter. -/
theorem find_closest_aspect_correct_witness :
    (find_closest_aspect moon310 sun312 none 1 =
      (aspectMatches (.classicCombined 0.6 0.5) moon310 sun312 1).foldl
        pickCloser none)
    ∧ (find_closest_aspect moon310 sun312 none 1 = none ↔
        aspectMatches (.classicCombined 0.6 0.5) moon310 sun312 1 = [])
    ∧ (find_closest_aspect moon310 sun312 none 1
          = some ⟨.conjunction, 2, 2⟩ →
        (⟨.conjunction, 2, 2⟩ : AspectInfo)
            ∈ aspectMatches (.classicCombined 0.6 0.5) moon310 sun312 1
        ∧ (⟨.conjunction, 2, 2⟩ : AspectInfo).aspect.type.value &&& 1 ≠ 0
        ∧ (∀ j ∈ aspectMatches (.classicCombined 0.6 0.5) moon310 sun312 1,
            (⟨.conjunction, 2, 2⟩ : AspectInfo).delta ≤ j.delta)
        ∧ ∃ pre post,
            aspectMatches (.classicCombined 0.6 0.5) moon310 sun312 1
              = pre ++ (⟨.conjunction, 2, 2⟩ : AspectInfo) :: post
            ∧ ∀ j ∈ pre, (⟨.conjunction, 2, 2⟩ : AspectInfo).delta
                < j.delta)
    ∧ find_closest_aspect_default moon310 sun312
        = find_closest_aspect moon310 sun312
            (some (.classicCombined 0.6 0.5)) AspectType.major.value :=
  find_closest_aspect_correct none moon310 sun312 1 ⟨.conjunction, 2, 2⟩

/-- C6: for every aspect kind, every pair of chart objects and each of the
three concrete orb policies, `is_aspect` is symmetric in its source and
target arguments (whether or not the optional arc is supplied). -/
theorem is_aspect_symm :
    ∀ (m : OrbsMethod) (s t : ChartObjectInfo) (a : Aspect)
      (arc? : Option ℚ), is_aspect m s t a arc? = is_aspect m t s a arc? := by
  intro m s t a arc?
  have harc : arc?.getD (shortest_arc_deg s.position.lmbda t.position.lmbda)
      = arc?.getD (shortest_arc_deg t.position.lmbda s.position.lmbda) := by
    unfold shortest_arc_deg
    rw [abs_sub_comm]
  have horb : calculate_orb s.type t.type = calculate_orb t.type s.type := by
    unfold calculate_orb
    ring
  cases m with
  | dariot => simp only [is_aspect]; rw [harc, horb]
  | deVore => simp only [is_aspect]; rw [harc]
  | classicCombined mc kc => simp only [is_aspect]; rw [harc, horb]

/-- C10: for each of the three orb policies, when the optional arc argument
is supplied, the result of `is_aspect` depends only on the two objects'
types, the aspect kind and the supplied arc — the stored ecliptic
longitudes are not read. -/
theorem is_aspect_supplied_arc_ignores_positions :
    ∀ (m : OrbsMethod) (s s' t t' : ChartObjectInfo) (a : Aspect) (arc : ℚ),
      s.type = s'.type → t.type = t'.type →
      is_aspect m s t a (some arc) = is_aspect m s' t' a (some arc) := by
  intro m s s' t t' a arc hs ht
  cases m with
  | dariot => simp only [is_aspect, Option.getD]; rw [hs, ht]
  | deVore => rfl
  | classicCombined mc kc => simp only [is_aspect, Option.getD]; rw [hs, ht]

/-- Witness for C10: two Moon–Sun pairs with different stored longitudes
but the same supplied arc get the same answer. -/
theorem is_aspect_supplied_arc_ignores_positions_witness :
    is_aspect .dariot ⟨.moon, ⟨310, 0⟩, 0, 0⟩ ⟨.sun, ⟨312, 0⟩, 0, 0⟩
        .conjunction (some 2)
      = is_aspect .dariot ⟨.moon, ⟨7, 0⟩, 0, 0⟩ ⟨.sun, ⟨250, 0⟩, 0, 0⟩
        .conjunction (some 2) :=
  is_aspect_supplied_arc_ignores_positions .dariot _ _ _ _ .conjunction 2
    rfl rfl

/-! ### Stellium partitioner: supporting lemmas -/

theorem insertByLongitude_perm (o : ChartObjectInfo) :
    ∀ l, (insertByLongitude o l).Perm (o :: l) := by
  intro l
  induction l with
  | nil => exact .refl _
  | cons x xs ih =>
      simp only [insertByLongitude]
      split
      · exact .refl _
      · exact (ih.cons x).trans (List.Perm.swap o x xs)

theorem sortedByLongitude_perm :
    ∀ l, (sortedByLongitude l).Perm l := by
  intro l
  induction l with
  | nil => exact .refl _
  | cons x xs ih =>
      exact (insertByLongitude_perm x (sortedByLongitude xs)).trans (ih.cons x)

theorem insertByLongitude_pairwise (o : ChartObjectInfo) :
    ∀ l, List.Pairwise
        (fun a b : ChartObjectInfo => a.position.lmbda ≤ b.position.lmbda) l →
      List.Pairwise
        (fun a b : ChartObjectInfo => a.position.lmbda ≤ b.position.lmbda)
        (insertByLongitude o l) := by
  intro l
  induction l with
  | nil => intro _; simp [insertByLongitude]
  | cons x xs ih =>
      intro h
      rcases List.pairwise_cons.mp h with ⟨hx, hxs⟩
      simp only [insertByLongitude]
      split
      · rename_i hle
        refine List.pairwise_cons.mpr ⟨?_, h⟩
        intro b hb
        rcases List.mem_cons.mp hb with rfl | hb'
        · exact hle
        · exact le_trans hle (hx b hb')
      · rename_i hgt
        refine List.pairwise_cons.mpr ⟨?_, ih hxs⟩
        intro b hb
        rcases List.mem_cons.mp ((insertByLongitude_perm o xs).mem_iff.mp hb)
          with rfl | h'
        · exact le_of_lt (lt_of_not_le hgt)
        · exact hx b h'

theorem sortedByLongitude_pairwise :
    ∀ l, List.Pairwise
      (fun a b : ChartObjectInfo => a.position.lmbda ≤ b.position.lmbda)
      (sortedByLongitude l) := by
  intro l
  induction l with
  | nil => simp [sortedByLongitude]
  | cons x xs ih => exact insertByLongitude_pairwise x _ ih

theorem shortest_arc_deg_lt_360 : ∀ a b : ℚ, shortest_arc_deg a b < 360 := by
  intro a b
  simp only [shortest_arc_deg]
  split
  · rename_i h; linarith
  · rename_i h
    have := abs_nonneg (a - b)
    linarith [not_lt.mp h]

theorem diff_angle_le_180 :
    ∀ a b : ℚ, 0 ≤ a → a < 360 → 0 ≤ b → b < 360 → diff_angle a b ≤ 180 := by
  intro a b ha0 ha1 hb0 hb1
  simp only [diff_angle]
  split
  · rename_i h; split
    · rename_i h'; linarith
    · rename_i h'; linarith [not_lt.mp h']
  · rename_i h; split
    · rename_i h'; linarith
    · rename_i h'; linarith [not_lt.mp h']

theorem drop_length_pred {α : Type} :
    ∀ (l : List α) (h : l ≠ []), l.drop (l.length - 1) = [l.getLast h] := by
  intro l
  induction l with
  | nil => intro h; cases h rfl
  | cons x xs ih =>
      intro h
      cases xs with
      | nil => simp
      | cons y ys =>
          have h2 : (y :: ys) ≠ [] := by simp
          have e1 : (x :: y :: ys).length - 1 = ys.length + 1 := by simp
          rw [e1, List.drop_succ_cons]
          have e2 : (y :: ys).length - 1 = ys.length := by simp
          have h3 := ih h2
          rw [e2] at h3
          rw [h3, List.getLast_cons h2]

theorem seam_step_eq_rotate :
    ∀ (x r : ChartObjectInfo) (rs : List ChartObjectInfo),
      (r :: rs).getLast (by simp) :: x :: (r :: rs).dropLast
        = (x :: r :: rs).rotate ((x :: r :: rs).length - 1) := by
  intro x r rs
  rw [List.rotate_eq_drop_append_take (by simp)]
  have e1 : (x :: r :: rs).length - 1 = rs.length + 1 := by simp
  rw [e1, List.drop_succ_cons]
  have e2 : (r :: rs).length - 1 = rs.length := by simp
  have h3 := drop_length_pred (r :: rs) (by simp)
  rw [e2] at h3
  rw [h3]
  have h4 : List.take (rs.length + 1) (x :: r :: rs) = (x :: r :: rs).dropLast := by
    rw [List.dropLast_eq_take]
    congr 1
  rw [h4, List.dropLast_cons₂]
  rfl

theorem seamRotate_perm (gap : ℚ) :
    ∀ (n : ℕ) (l l' : List ChartObjectInfo),
      seamRotate gap n l = some l' → l'.Perm l := by
  intro n
  induction n with
  | zero =>
      intro l l' h
      cases Option.some.inj h
      exact .refl _
  | succ n ih =>
      intro l l' h
      match l with
      | [] => cases h
      | [x] => cases h
      | first :: r :: rs =>
          simp only [seamRotate] at h
          have hd : (r :: rs).dropLast ++ [(r :: rs).getLast (by simp)]
              = r :: rs := List.dropLast_append_getLast _
          split at h
          · have hperm := ih _ _ h
            refine hperm.trans ?_
            refine (List.Perm.swap first _ _).trans ?_
            refine List.Perm.cons first ?_
            exact ((List.perm_append_singleton _ _).symm).trans
              (by rw [hd])
          · cases Option.some.inj h
            refine List.Perm.cons first ?_
            rw [hd]

theorem seamRotate_isSome (gap : ℚ) :
    ∀ (n : ℕ) (l : List ChartObjectInfo), 2 ≤ l.length →
      (seamRotate gap n l).isSome := by
  intro n
  induction n with
  | zero => intro l _; rfl
  | succ n ih =>
      intro l h2
      match l, h2 with
      | first :: r :: rs, _ =>
          simp only [seamRotate]
          split
          · exact ih _ (by simp)
          · rfl

theorem seamRotate_break (gap : ℚ) :
    ∀ (n : ℕ) (first r : ChartObjectInfo) (rs : List ChartObjectInfo),
      ¬(shortest_arc_deg first.position.lmbda
          ((r :: rs).getLast (by simp)).position.lmbda ≤ gap) →
      seamRotate gap n (first :: r :: rs) = some (first :: r :: rs) := by
  intro n first r rs hc
  cases n with
  | zero => rfl
  | succ n =>
      simp only [seamRotate]
      rw [if_neg hc, List.dropLast_append_getLast]

theorem seamRotate_all_rotate (gap : ℚ) (hgap : 360 < gap) :
    ∀ (n : ℕ) (l : List ChartObjectInfo), 2 ≤ l.length →
      seamRotate gap n l = some (l.rotate ((l.length - 1) * n)) := by
  intro n
  induction n with
  | zero =>
      intro l _
      rw [Nat.mul_zero, List.rotate_zero]
      rfl
  | succ n ih =>
      intro l h2
      match l, h2 with
      | first :: r :: rs, _ =>
          simp only [seamRotate]
          rw [if_pos (le_of_lt (lt_trans (shortest_arc_deg_lt_360 _ _) hgap))]
          rw [ih _ (by simp)]
          congr 1
          rw [seam_step_eq_rotate, List.rotate_rotate]
          congr 1
          have hlen : ((first :: r :: rs).rotate
              ((first :: r :: rs).length - 1)).length
              = (first :: r :: rs).length := List.length_rotate _ _
          rw [hlen]
          simp only [List.length_cons]
          ring

theorem scanGroups_flatten (gap : ℚ) :
    ∀ (l : List ChartObjectInfo) (group : List ChartObjectInfo), l ≠ [] →
      (scanGroups gap group l).flatten = group ++ l := by
  intro l
  induction l with
  | nil => intro g h; cases h rfl
  | cons curr rest ih =>
      intro g _
      cases rest with
      | nil => simp [scanGroups]
      | cons next rest' =>
          simp only [scanGroups]
          split
          · rw [List.flatten_cons, ih [] (by simp)]
            simp
          · rw [ih (g ++ [curr]) (by simp)]
            simp

theorem scanGroups_ne_nil (gap : ℚ) :
    ∀ (l : List ChartObjectInfo) (group g : List ChartObjectInfo),
      g ∈ scanGroups gap group l → g ≠ [] := by
  intro l
  induction l with
  | nil => intro group g h; cases h
  | cons curr rest ih =>
      intro group g h
      cases rest with
      | nil =>
          simp only [scanGroups, List.mem_singleton] at h
          subst h
          simp
      | cons next rest' =>
          simp only [scanGroups] at h
          split at h
          · rcases List.mem_cons.mp h with rfl | h'
            · simp
            · exact ih _ _ h'
          · exact ih _ _ h

theorem scanGroups_split_all (gap : ℚ) :
    ∀ (rest : List ChartObjectInfo) (c : ChartObjectInfo)
      (group : List ChartObjectInfo),
      List.Chain'
        (fun a b : ChartObjectInfo =>
          gap < diff_angle a.position.lmbda b.position.lmbda) (c :: rest) →
      scanGroups gap group (c :: rest)
        = (group ++ [c]) :: rest.map (fun o => [o]) := by
  intro rest
  induction rest with
  | nil => intro c g _; simp [scanGroups]
  | cons next rest' ih =>
      intro c g hch
      rcases List.chain'_cons.mp hch with ⟨h1, h2⟩
      simp only [scanGroups]
      rw [if_pos h1, ih next [] h2]
      simp

theorem scanGroups_one_group (gap : ℚ) :
    ∀ (rest : List ChartObjectInfo) (c : ChartObjectInfo)
      (group : List ChartObjectInfo),
      List.Chain'
        (fun a b : ChartObjectInfo =>
          diff_angle a.position.lmbda b.position.lmbda ≤ gap) (c :: rest) →
      scanGroups gap group (c :: rest) = [group ++ (c :: rest)] := by
  intro rest
  induction rest with
  | nil => intro c g _; simp [scanGroups]
  | cons next rest' ih =>
      intro c g hch
      rcases List.chain'_cons.mp hch with ⟨h1, h2⟩
      simp only [scanGroups]
      rw [if_neg (not_lt.mpr h1), ih next (g ++ [c]) h2]
      simp

/-- C9: `iter_stelliums` is partial at the one-body edge case: a singleton
input fails with the empty-pop error (the rotation loop pops its only
element and then pops an empty deque), while for zero or at least two
bodies every pop happens on a non-empty deque and a group list is
produced. -/
theorem iter_stelliums_single_body_partiality :
    ∀ gap : ℚ,
      (∀ x : ChartObjectInfo, iter_stelliums [x] gap = none)
      ∧ (∀ objs : List ChartObjectInfo, objs.length ≠ 1 →
          ∃ gs, iter_stelliums objs gap = some gs) := by
  intro gap
  constructor
  · intro x
    rfl
  · intro objs hne
    cases objs with
    | nil => exact ⟨[], rfl⟩
    | cons a t =>
        cases t with
        | nil => cases hne rfl
        | cons b t' =>
            have hlen2 : 2 ≤ (sortedByLongitude (a :: b :: t')).length := by
              rw [(sortedByLongitude_perm _).length_eq]
              simp
            obtain ⟨l', hl'⟩ := Option.isSome_iff_exists.mp
              (seamRotate_isSome gap
                (sortedByLongitude (a :: b :: t')).length _ hlen2)
            exact ⟨scanGroups gap [] l', by simp [iter_stelliums, hl']⟩

/-- Witness for C9: one body fails, two bodies succeed. -/
theorem iter_stelliums_single_body_partiality_witness :
    iter_stelliums [moon310] 10 = none
    ∧ ∃ gs, iter_stelliums [moon310, sun312] 10 = some gs :=
  ⟨(iter_stelliums_single_body_partiality 10).1 moon310,
   (iter_stelliums_single_body_partiality 10).2 [moon310, sun312] (by decide)⟩

/-- Counterexample for C8: a single body makes the partitioner fail with
the empty-pop error instead of yielding one singleton group, and with
`gap = 0` two distinct bodies at 10° and 350° (circularly 20° apart, more
than 180° apart linearly) come back as ONE group of two rather than two
singleton groups, because the signed forward difference `diff_angle`
becomes negative across the seam. -/
theorem iter_stelliums_claim_counterexample :
    iter_stelliums [⟨.moon, ⟨10, 0⟩, 0, 0⟩] 0 = none
    ∧ iter_stelliums [⟨.moon, ⟨10, 0⟩, 0, 0⟩, ⟨.sun, ⟨350, 0⟩, 0, 0⟩] 0
        = some [[⟨.moon, ⟨10, 0⟩, 0, 0⟩, ⟨.sun, ⟨350, 0⟩, 0, 0⟩]] := by
  refine ⟨rfl, ?_⟩
  norm_num [iter_stelliums, sortedByLongitude, insertByLongitude, seamRotate,
    scanGroups, shortest_arc_deg, diff_angle]

/-- C8 (amended): for every input with zero or at least two bodies the
partitioner succeeds, its groups are non-empty and cover every input body
exactly once; with `gap = 0` it yields exactly the singleton groups in
ascending-longitude order provided the longitudes are pairwise distinct,
normalised to `[0, 360)` and no two longitude-adjacent bodies are more
than 180° apart; and with a gap above the full circular span (and
normalised longitudes) it yields exactly one group of all bodies. -/
theorem iter_stelliums_partition :
    ∀ (gap : ℚ) (objs : List ChartObjectInfo), objs.length ≠ 1 →
      ∃ gs, iter_stelliums objs gap = some gs
        ∧ gs.flatten.Perm objs
        ∧ (∀ g ∈ gs, g ≠ [])
        ∧ (gap = 0 →
            List.Pairwise
              (fun a b : ChartObjectInfo =>
                a.position.lmbda ≠ b.position.lmbda) objs →
            (∀ o ∈ objs, 0 ≤ o.position.lmbda ∧ o.position.lmbda < 360) →
            List.Chain'
              (fun a b : ChartObjectInfo =>
                b.position.lmbda - a.position.lmbda ≤ 180)
              (sortedByLongitude objs) →
            gs = (sortedByLongitude objs).map (fun o => [o]))
        ∧ (360 < gap →
            (∀ o ∈ objs, 0 ≤ o.position.lmbda ∧ o.position.lmbda < 360) →
            objs ≠ [] → gs = [sortedByLongitude objs]) := by
  intro gap objs hne
  cases objs with
  | nil =>
      refine ⟨[], rfl, by simp, by simp, ?_, ?_⟩
      · intro _ _ _ _
        simp [sortedByLongitude]
      · intro _ _ h
        cases h rfl
  | cons a t =>
    cases t with
    | nil => cases hne rfl
    | cons b t' =>
      have hlen2 : 2 ≤ (sortedByLongitude (a :: b :: t')).length := by
        rw [(sortedByLongitude_perm _).length_eq]
        simp
      obtain ⟨l', hl'⟩ := Option.isSome_iff_exists.mp
        (seamRotate_isSome gap
          (sortedByLongitude (a :: b :: t')).length _ hlen2)
      have hiter : iter_stelliums (a :: b :: t') gap
          = some (scanGroups gap [] l') := by
        simp [iter_stelliums, hl']
      have hperm : l'.Perm (sortedByLongitude (a :: b :: t')) :=
        seamRotate_perm gap _ _ _ hl'
      have hpermObjs : l'.Perm (a :: b :: t') :=
        hperm.trans (sortedByLongitude_perm _)
      have hl'ne : l' ≠ [] := by
        intro h
        rw [h] at hperm
        have := hperm.length_eq
        rw [← this] at hlen2
        simp at hlen2
      obtain ⟨s0, s1, srest, hsort⟩ :
          ∃ s0 s1 srest, sortedByLongitude (a :: b :: t')
            = s0 :: s1 :: srest := by
        cases hs : sortedByLongitude (a :: b :: t') with
        | nil => rw [hs] at hlen2; simp at hlen2
        | cons s0 rest0 =>
            cases rest0 with
            | nil => rw [hs] at hlen2; simp at hlen2
            | cons s1 srest => exact ⟨s0, s1, srest, rfl⟩
      refine ⟨scanGroups gap [] l', hiter, ?_, ?_, ?_, ?_⟩
      · cases l' with
        | nil => cases hl'ne rfl
        | cons c restl =>
            rw [scanGroups_flatten gap _ _ (by simp)]
            simpa using hpermObjs
      · intro g hg
        exact scanGroups_ne_nil gap _ _ _ hg
      · -- gap = 0, distinct, normalised, adjacent within 180°
        intro hgap hdist hbounds hchain
        subst hgap
        have hle := sortedByLongitude_pairwise (a :: b :: t')
        have hne' : List.Pairwise
            (fun a b : ChartObjectInfo =>
              a.position.lmbda ≠ b.position.lmbda)
            (sortedByLongitude (a :: b :: t')) :=
          ((sortedByLongitude_perm (a :: b :: t')).pairwise_iff
            (fun h => h.symm)).mpr hdist
        have hlt : List.Pairwise
            (fun a b : ChartObjectInfo =>
              a.position.lmbda < b.position.lmbda)
            (sortedByLongitude (a :: b :: t')) :=
          (hle.and hne').imp (fun h => lt_of_le_of_ne h.1 h.2)
        have hbs : ∀ o ∈ sortedByLongitude (a :: b :: t'),
            0 ≤ o.position.lmbda ∧ o.position.lmbda < 360 := by
          intro o ho
          exact hbounds o ((sortedByLongitude_perm _).mem_iff.mp ho)
        rw [hsort] at hlt hbs hl' hchain
        -- the first/last circular separation is positive, so the rotation
        -- loop breaks on its first round
        have hlast_mem := List.getLast_mem (l := s1 :: srest) (by simp)
        have h0last : s0.position.lmbda
            < ((s1 :: srest).getLast (by simp)).position.lmbda :=
          List.rel_of_pairwise_cons hlt hlast_mem
        have h0b := hbs s0 (by simp)
        have hlastb := hbs ((s1 :: srest).getLast (by simp))
          (List.mem_cons_of_mem s0 hlast_mem)
        have harc : ¬(shortest_arc_deg s0.position.lmbda
            ((s1 :: srest).getLast (by simp)).position.lmbda ≤ 0) := by
          simp only [shortest_arc_deg]
          rw [abs_sub_comm, abs_of_pos (by linarith)]
          split
          · push_neg
            linarith [h0b.1, h0b.2, hlastb.1, hlastb.2]
          · push_neg
            linarith [h0b.1, h0b.2, hlastb.1, hlastb.2]
        have hrot := seamRotate_break 0 (s0 :: s1 :: srest).length s0 s1
          srest harc
        rw [hrot] at hl'
        have hl'eq := Option.some.inj hl'
        subst hl'eq
        -- every adjacent pair in the sorted order is strictly split
        have hchain' : List.Chain'
            (fun a b : ChartObjectInfo =>
              (0 : ℚ) < diff_angle a.position.lmbda b.position.lmbda)
            (s0 :: s1 :: srest) := by
          rw [List.chain'_iff_get]
          intro i hi
          have hadj := List.chain'_iff_get.mp hlt.chain' i hi
          have h180 := List.chain'_iff_get.mp hchain i hi
          simp only [diff_angle]
          rw [if_neg (not_lt.mpr (le_of_lt hadj)),
            if_neg (not_lt.mpr h180)]
          linarith
        rw [scanGroups_split_all 0 _ _ _ hchain', hsort]
        simp
      · -- gap above the full circle
        intro hgap hbounds _
        have hrot := seamRotate_all_rotate gap hgap
          (sortedByLongitude (a :: b :: t')).length
          (sortedByLongitude (a :: b :: t')) hlen2
        have hid : (sortedByLongitude (a :: b :: t')).rotate
            (((sortedByLongitude (a :: b :: t')).length - 1)
              * (sortedByLongitude (a :: b :: t')).length)
            = sortedByLongitude (a :: b :: t') := by
          rw [← List.rotate_mod, Nat.mul_mod_left, List.rotate_zero]
        rw [hid] at hrot
        rw [hrot] at hl'
        have hl'eq := Option.some.inj hl'
        subst hl'eq
        have hbs : ∀ o ∈ sortedByLongitude (a :: b :: t'),
            0 ≤ o.position.lmbda ∧ o.position.lmbda < 360 := by
          intro o ho
          exact hbounds o ((sortedByLongitude_perm _).mem_iff.mp ho)
        have hchain : List.Chain'
            (fun a b : ChartObjectInfo =>
              diff_angle a.position.lmbda b.position.lmbda ≤ gap)
            (sortedByLongitude (a :: b :: t')) := by
          refine List.Pairwise.chain' (List.pairwise_of_forall_mem_list ?_)
          intro x hx y hy
          have hbx := hbs x hx
          have hby := hbs y hy
          have := diff_angle_le_180 x.position.lmbda y.position.lmbda
            hbx.1 hbx.2 hby.1 hby.2
          linarith
        rw [hsort] at hchain ⊢
        rw [scanGroups_one_group gap _ _ _ hchain]
        simp

/-- Witness for C8: the theorem applied to a concrete two-body input with
`gap = 0`. -/
theorem iter_stelliums_partition_witness :
    ∃ gs, iter_stelliums [moon310, sun312] 0 = some gs
      ∧ gs.flatten.Perm [moon310, sun312]
      ∧ (∀ g ∈ gs, g ≠ [])
      ∧ ((0 : ℚ) = 0 →
          List.Pairwise
            (fun a b : ChartObjectInfo =>
              a.position.lmbda ≠ b.position.lmbda) [moon310, sun312] →
          (∀ o ∈ [moon310, sun312],
            0 ≤ o.position.lmbda ∧ o.position.lmbda < 360) →
          List.Chain'
            (fun a b : ChartObjectInfo =>
              b.position.lmbda - a.position.lmbda ≤ 180)
            (sortedByLongitude [moon310, sun312]) →
          gs = (sortedByLongitude [moon310, sun312]).map (fun o => [o]))
      ∧ ((360 : ℚ) < 0 →
          (∀ o ∈ [moon310, sun312],
            0 ≤ o.position.lmbda ∧ o.position.lmbda < 360) →
          [moon310, sun312] ≠ [] →
          gs = [sortedByLongitude [moon310, sun312]]) :=
  iter_stelliums_partition 0 [moon310, sun312] (by decide)

/-! ### House engine: supporting lemmas -/

theorem asinOpt_eq_some {z : ℝ} (h1 : -1 ≤ z) (h2 : z ≤ 1) :
    asinOpt z = some (Real.arcsin z) := by
  unfold asinOpt
  rw [if_neg]
  push_neg
  exact ⟨h1, h2⟩

theorem asinOpt_sin_mul_sin (x y : ℝ) :
    asinOpt (Real.sin x * Real.sin y)
      = some (Real.arcsin (Real.sin x * Real.sin y)) := by
  apply asinOpt_eq_some
  · nlinarith [Real.sin_le_one x, Real.neg_one_le_sin x, Real.sin_le_one y,
      Real.neg_one_le_sin y]
  · nlinarith [Real.sin_le_one x, Real.neg_one_le_sin x, Real.sin_le_one y,
      Real.neg_one_le_sin y]

theorem abs_sin_eq_sin_abs {x : ℝ} (h : |x| ≤ Real.pi) :
    |Real.sin x| = Real.sin |x| := by
  rcases le_or_lt 0 x with hx | hx
  · rw [abs_of_nonneg hx] at h ⊢
    rw [abs_of_nonneg (Real.sin_nonneg_of_nonneg_of_le_pi hx h)]
  · have hx' : 0 ≤ -x := by linarith
    rw [abs_of_neg hx] at h ⊢
    rw [show Real.sin x = -Real.sin (-x) by rw [Real.sin_neg]; ring]
    rw [abs_neg, abs_of_nonneg (Real.sin_nonneg_of_nonneg_of_le_pi hx' h)]

theorem abs_arcsin_le {z b : ℝ} (hb0 : 0 ≤ b) (hb : b ≤ Real.pi / 2)
    (hz : |z| ≤ Real.sin b) : |Real.arcsin z| ≤ b := by
  rw [abs_le]
  constructor
  · have hzl : -Real.sin b ≤ z := neg_le_of_abs_le hz
    calc -b = Real.arcsin (-Real.sin b) := by
          rw [Real.arcsin_neg, Real.arcsin_sin (by linarith) hb]
      _ ≤ Real.arcsin z := Real.monotone_arcsin hzl
  · calc Real.arcsin z ≤ Real.arcsin (Real.sin b) :=
          Real.monotone_arcsin (le_of_abs_le hz)
      _ = b := Real.arcsin_sin (by linarith) hb

theorem tan_nonneg_of_lt_pi_div_two {x : ℝ} (h0 : 0 ≤ x)
    (h : x < Real.pi / 2) : 0 ≤ Real.tan x := by
  rw [Real.tan_eq_sin_div_cos]
  apply div_nonneg
  · exact Real.sin_nonneg_of_nonneg_of_le_pi h0 (by linarith [Real.pi_pos])
  · exact le_of_lt (Real.cos_pos_of_mem_Ioo ⟨by linarith [Real.pi_pos], h⟩)

theorem abs_tan_eq_tan_abs {x : ℝ} (h : |x| < Real.pi / 2) :
    |Real.tan x| = Real.tan |x| := by
  rcases le_or_lt 0 x with hx | hx
  · rw [abs_of_nonneg hx] at h ⊢
    rw [abs_of_nonneg (tan_nonneg_of_lt_pi_div_two hx h)]
  · rw [abs_of_neg hx] at h ⊢
    rw [show Real.tan x = -Real.tan (-x) by rw [Real.tan_neg]; ring]
    rw [abs_neg,
      abs_of_nonneg (tan_nonneg_of_lt_pi_div_two (by linarith) h)]

theorem abs_tan_le_tan {a b : ℝ} (hab : |a| ≤ b) (hb : b < Real.pi / 2) :
    |Real.tan a| ≤ Real.tan b := by
  have ha : |a| < Real.pi / 2 := lt_of_le_of_lt hab hb
  rw [abs_tan_eq_tan_abs ha]
  rcases eq_or_lt_of_le hab with h | h
  · rw [h]
  · exact le_of_lt (Real.strictMonoOn_tan
      ⟨by linarith [abs_nonneg a, Real.pi_pos], ha⟩
      ⟨by linarith [abs_nonneg a, Real.pi_pos], hb⟩ h)

theorem abs_tan_lt_one {x : ℝ} (h : |x| < Real.pi / 4) :
    |Real.tan x| < 1 := by
  have h2 : |x| < Real.pi / 2 := by linarith [Real.pi_pos]
  rw [abs_tan_eq_tan_abs h2]
  calc Real.tan |x|
      < Real.tan (Real.pi / 4) :=
        Real.strictMonoOn_tan ⟨by linarith [abs_nonneg x, Real.pi_pos], h2⟩
          ⟨by linarith [Real.pi_pos], by linarith [Real.pi_pos]⟩ h
    _ = 1 := Real.tan_pi_div_four

/-- Within `|θ| < 45°` and `|ε| < 45°` the argument of the outer `asin` of
the Koch generator stays in `[-1, 1]`, whatever the midheaven value. -/
theorem koch_arg_le_one {theta eps mc : ℝ} (hθ : |theta| < Real.pi / 4)
    (hε : |eps| < Real.pi / 4) :
    |Real.tan theta
      * Real.tan (Real.arcsin (Real.sin mc * Real.sin eps))| ≤ 1 := by
  have hεπ2 : |eps| ≤ Real.pi / 2 := by linarith [Real.pi_pos]
  have hz : |Real.sin mc * Real.sin eps| ≤ Real.sin |eps| := by
    rw [abs_mul]
    calc |Real.sin mc| * |Real.sin eps|
        ≤ 1 * |Real.sin eps| := by
          apply mul_le_mul_of_nonneg_right _ (abs_nonneg _)
          exact abs_le.mpr ⟨Real.neg_one_le_sin mc, Real.sin_le_one mc⟩
      _ = |Real.sin eps| := one_mul _
      _ = Real.sin |eps| := abs_sin_eq_sin_abs (by linarith [Real.pi_pos])
  have ha : |Real.arcsin (Real.sin mc * Real.sin eps)| ≤ |eps| :=
    abs_arcsin_le (abs_nonneg eps) hεπ2 hz
  have h1 : |Real.tan theta| < 1 := abs_tan_lt_one hθ
  have h2 : |Real.tan (Real.arcsin (Real.sin mc * Real.sin eps))|
      ≤ Real.tan |eps| :=
    abs_tan_le_tan ha (by linarith [Real.pi_pos])
  have h0 : 0 ≤ Real.tan |eps| :=
    tan_nonneg_of_lt_pi_div_two (abs_nonneg _) (by linarith [Real.pi_pos])
  have h3 : Real.tan |eps| < 1 := by
    have h4 := abs_tan_lt_one (x := |eps|) (by rwa [abs_abs])
    rwa [abs_of_nonneg h0] at h4
  rw [abs_mul]
  calc |Real.tan theta|
        * |Real.tan (Real.arcsin (Real.sin mc * Real.sin eps))|
      ≤ 1 * Real.tan |eps| :=
        mul_le_mul (le_of_lt h1) h2 (abs_nonneg _) zero_le_one
    _ = Real.tan |eps| := one_mul _
    _ ≤ 1 := le_of_lt h3

theorem degRad_abs (d : ℚ) : |degRad d| = ((|d| : ℚ) : ℝ) * Real.pi / 180 := by
  unfold degRad
  rw [abs_div, abs_mul, abs_of_pos Real.pi_pos]
  push_cast
  norm_num

theorem degRad_lt_pi_div_four {d : ℚ} (h : |d| < 45) :
    |degRad d| < Real.pi / 4 := by
  rw [degRad_abs]
  have hc : ((|d| : ℚ) : ℝ) < 45 := by exact_mod_cast h
  have habs : (0 : ℝ) ≤ ((|d| : ℚ) : ℝ) := by
    exact_mod_cast abs_nonneg d
  have key : 0 < (45 - ((|d| : ℚ) : ℝ)) * Real.pi :=
    mul_pos (by linarith) Real.pi_pos
  nlinarith [Real.pi_pos]

/-- The latitude guard of `quadrant_cusps`, read back in arc-degrees. -/
theorem quadrant_guard_iff (dθ dε : ℚ) :
    (|degRad dθ| > _R90 - |degRad dε|) ↔ (90 - |dε| < |dθ|) := by
  rw [degRad_abs, degRad_abs]
  unfold _R90
  constructor
  · intro h
    by_contra hq
    push_neg at hq
    have hc : ((|dθ| : ℚ) : ℝ) ≤ 90 - ((|dε| : ℚ) : ℝ) := by
      exact_mod_cast hq
    have key : 0 ≤ (90 - ((|dθ| : ℚ) : ℝ) - ((|dε| : ℚ) : ℝ)) * Real.pi :=
      mul_nonneg (by linarith) (le_of_lt Real.pi_pos)
    rw [gt_iff_lt] at h
    nlinarith [key]
  · intro h
    have hc : (90 : ℝ) - ((|dε| : ℚ) : ℝ) < ((|dθ| : ℚ) : ℝ) := by
      exact_mod_cast h
    have key : 0 < (((|dθ| : ℚ) : ℝ) + ((|dε| : ℚ) : ℝ) - 90) * Real.pi :=
      mul_pos (by linarith) Real.pi_pos
    rw [gt_iff_lt]
    nlinarith [key]

theorem koch_cusps_isSome4 (ramc eps theta mc : ℝ)
    (hθ : |theta| < Real.pi / 4) (hε : |eps| < Real.pi / 4) :
    ∃ b0 b1 b2 b3, koch_cusps ramc eps theta mc = some [b0, b1, b2, b3] := by
  have h2 := @koch_arg_le_one theta eps mc hθ hε
  simp only [koch_cusps, asinOpt_sin_mul_sin, Option.some_bind]
  rw [asinOpt_eq_some (neg_le_of_abs_le h2) (le_of_abs_le h2)]
  exact ⟨_, _, _, _, rfl⟩

theorem campanus_cusps_isSome4 (ramc eps theta : ℝ) :
    ∃ b0 b1 b2 b3, campanus_cusps ramc eps theta = some [b0, b1, b2, b3] := by
  simp only [campanus_cusps, List.mapM_cons, List.mapM_nil,
    asinOpt_sin_mul_sin]
  exact ⟨_, _, _, _, rfl⟩

/-- C2: the latitude guard `|θ| > 90° − |ε|` is checked first, before any
per-system dispatch, so when it fires — for any of the nine systems,
quadrant or not — the call returns the domain error and no cusps (first
conjunct); in particular every system fails at `θ = 89°, ε = 23.44°`
(second conjunct); at `θ = 42°, ε = 23.44°` the four closed-form quadrant
systems return a cusp list (third conjunct) and Placidus never fails with
the domain error (fourth conjunct). -/
theorem quadrant_cusps_latitude_guard :
    ∀ (fuel : ℕ) (ramc : ℝ) (asc? mc? : Option ℝ),
      (∀ (dθ dε : ℚ), 90 - |dε| < |dθ| →
        ∀ system : HousesSystem,
          quadrant_cusps fuel system ramc (degRad dε) (degRad dθ) asc? mc?
            = .error .highLatitude)
      ∧ (∀ system : HousesSystem,
          quadrant_cusps fuel system ramc (degRad (23.44 : ℚ)) (degRad 89)
            asc? mc? = .error .highLatitude)
      ∧ (∀ system ∈ [HousesSystem.koch, HousesSystem.regiomontanus,
            HousesSystem.campanus, HousesSystem.topocentric],
          ∃ l, quadrant_cusps fuel system ramc (degRad (23.44 : ℚ))
            (degRad 42) asc? mc? = .ok l)
      ∧ quadrant_cusps fuel .placidus ramc (degRad (23.44 : ℚ)) (degRad 42)
          asc? mc? ≠ .error .highLatitude := by
  intro fuel ramc asc? mc?
  have hpart1 : ∀ (dθ dε : ℚ), 90 - |dε| < |dθ| →
      ∀ system : HousesSystem,
        quadrant_cusps fuel system ramc (degRad dε) (degRad dθ) asc? mc?
          = .error .highLatitude := by
    intro dθ dε h system
    unfold quadrant_cusps
    rw [if_pos ((quadrant_guard_iff dθ dε).mpr h)]
  have he : |(23.44 : ℚ)| = 23.44 := abs_of_pos (by norm_num)
  have hguard42 : ¬(|degRad 42| > _R90 - |degRad (23.44 : ℚ)|) := by
    rw [quadrant_guard_iff, he]
    norm_num
  have hθ4 : |degRad 42| < Real.pi / 4 := degRad_lt_pi_div_four (by norm_num)
  have hε4 : |degRad (23.44 : ℚ)| < Real.pi / 4 :=
    degRad_lt_pi_div_four (by rw [he]; norm_num)
  refine ⟨hpart1,
    fun system => hpart1 89 (23.44 : ℚ) (by rw [he]; norm_num) system,
    ?_, ?_⟩
  · intro system hsys
    fin_cases hsys
    · -- Koch
      obtain ⟨b0, b1, b2, b3, hk⟩ := koch_cusps_isSome4 ramc
        (degRad (23.44 : ℚ)) (degRad 42)
        (mc?.getD (midheaven ramc (degRad (23.44 : ℚ)))) hθ4 hε4
      exact ⟨_, by
        unfold quadrant_cusps quadrant_base
        rw [if_neg hguard42]
        dsimp only
        rw [hk]⟩
    · -- Regiomontanus
      exact ⟨_, by
        unfold quadrant_cusps quadrant_base
        rw [if_neg hguard42]
        dsimp only
        rfl⟩
    · -- Campanus
      obtain ⟨b0, b1, b2, b3, hc⟩ := campanus_cusps_isSome4 ramc
        (degRad (23.44 : ℚ)) (degRad 42)
      exact ⟨_, by
        unfold quadrant_cusps quadrant_base
        rw [if_neg hguard42]
        dsimp only
        rw [hc]⟩
    · -- Topocentric
      exact ⟨_, by
        unfold quadrant_cusps quadrant_base
        rw [if_neg hguard42]
        dsimp only
        rfl⟩
  · unfold quadrant_cusps quadrant_base
    rw [if_neg hguard42]
    cases hp : placidus_cusps fuel ramc (degRad (23.44 : ℚ)) (degRad 42) with
    | ok l =>
        match l with
        | [] => simp
        | [b0] => simp
        | [b0, b1] => simp
        | [b0, b1, b2] => simp
        | b0 :: b1 :: b2 :: b3 :: rest => simp
    | error e => cases e <;> simp

/-- Witness for C2: the theorem at fuel 1, `ramc = 0` and no supplied
angles. -/
theorem quadrant_cusps_latitude_guard_witness :
    (∀ (dθ dε : ℚ), 90 - |dε| < |dθ| →
      ∀ system : HousesSystem,
        quadrant_cusps 1 system 0 (degRad dε) (degRad dθ) none none
          = .error .highLatitude)
    ∧ (∀ system : HousesSystem,
        quadrant_cusps 1 system 0 (degRad (23.44 : ℚ)) (degRad 89)
          none none = .error .highLatitude)
    ∧ (∀ system ∈ [HousesSystem.koch, HousesSystem.regiomontanus,
          HousesSystem.campanus, HousesSystem.topocentric],
        ∃ l, quadrant_cusps 1 system 0 (degRad (23.44 : ℚ))
          (degRad 42) none none = .ok l)
    ∧ quadrant_cusps 1 .placidus 0 (degRad (23.44 : ℚ)) (degRad 42)
        none none ≠ .error .highLatitude :=
  quadrant_cusps_latitude_guard 1 0 none none

/-- C3: for every quadrant house system, `quadrant_cusps` factors through
the per-system 4-base-angle generator (`quadrant_base`) followed by the one
shared expansion `quadrant_expand` — house 1 = Ascendant, houses 2/3 = the
third/fourth base angles, house 4 = Midheaven+180° reduced, houses 5/6 =
first/second base angles +180° reduced, house 7 = Ascendant+180° reduced,
houses 8/9 = third/fourth base angles +180° reduced, house 10 = Midheaven,
houses 11/12 = first/second base angles — converted to degrees; and the
expansion always yields 12 cusps. -/
theorem quadrant_cusps_shared_expansion :
    ∀ system ∈ quadrantSystems,
      ∀ (fuel : ℕ) (ramc eps theta : ℝ) (asc? mc? : Option ℝ),
        (quadrant_cusps fuel system ramc eps theta asc? mc?
          = if |theta| > _R90 - |eps| then .error .highLatitude
            else
              match quadrant_base fuel system ramc eps theta
                  (mc?.getD (midheaven ramc eps)) with
              | .error e => .error e
              | .ok (b0 :: b1 :: b2 :: b3 :: _) =>
                  .ok ((quadrant_expand
                    (asc?.getD (ascendant ramc eps theta))
                    (mc?.getD (midheaven ramc eps)) b0 b1 b2 b3).map degrees)
              | .ok _ => .error .indexError)
        ∧ ∀ asc mc b0 b1 b2 b3 : ℝ,
            (quadrant_expand asc mc b0 b1 b2 b3).length = 12 := by
  intro system _ fuel ramc eps theta asc? mc?
  refine ⟨?_, fun asc mc b0 b1 b2 b3 => rfl⟩
  by_cases hg : |theta| > _R90 - |eps|
  · rw [if_pos hg]
    unfold quadrant_cusps
    rw [if_pos hg]
  · rw [if_neg hg]
    unfold quadrant_cusps
    rw [if_neg hg]
    dsimp only
    cases hb : quadrant_base fuel system ramc eps theta
        (mc?.getD (midheaven ramc eps)) with
    | error e => rfl
    | ok base =>
        match base with
        | [] => rfl
        | [b0] => rfl
        | [b0, b1] => rfl
        | [b0, b1, b2] => rfl
        | b0 :: b1 :: b2 :: b3 :: rest => rfl

/-- Witness for C3: the theorem at the Koch system with zero angles. -/
theorem quadrant_cusps_shared_expansion_witness :
    (quadrant_cusps 1 .koch 0 0 0 none none
      = if |(0 : ℝ)| > _R90 - |(0 : ℝ)| then .error .highLatitude
        else
          match quadrant_base 1 .koch 0 0 0
              ((none : Option ℝ).getD (midheaven 0 0)) with
          | .error e => .error e
          | .ok (b0 :: b1 :: b2 :: b3 :: _) =>
              .ok ((quadrant_expand
                ((none : Option ℝ).getD (ascendant 0 0 0))
                ((none : Option ℝ).getD (midheaven 0 0)) b0 b1 b2 b3).map
                  degrees)
          | .ok _ => .error .indexError)
    ∧ ∀ asc mc b0 b1 b2 b3 : ℝ,
        (quadrant_expand asc mc b0 b1 b2 b3).length = 12 :=
  quadrant_cusps_shared_expansion .koch (by decide) 1 0 0 0 none none

theorem plac_loop_neg_eq (r f tt : ℝ) :
    ∀ (fuel : ℕ) (x : ℝ),
      plac_loop (-1) r f tt fuel x = spec_plac_iter_neg r f tt fuel x := by
  intro fuel
  induction fuel with
  | zero => intro x; rfl
  | succ n ih =>
      intro x
      simp only [plac_loop, spec_plac_iter_neg, _PLAC_DELTA]
      rw [show (-1 : ℝ) * Real.sin x * tt = -(Real.sin x * tt) from by ring]
      cases hA : acosOpt (-(Real.sin x * tt)) with
      | none => rfl
      | some a =>
          dsimp only
          rw [show r - (-1) * a / f = r + a / f from by ring]
          split
          · rfl
          · exact ih _

theorem plac_loop_pos_eq (r f tt : ℝ) :
    ∀ (fuel : ℕ) (x : ℝ),
      plac_loop 1 r f tt fuel x = spec_plac_iter_pos r f tt fuel x := by
  intro fuel
  induction fuel with
  | zero => intro x; rfl
  | succ n ih =>
      intro x
      simp only [plac_loop, spec_plac_iter_pos, _PLAC_DELTA]
      rw [show (1 : ℝ) * Real.sin x * tt = Real.sin x * tt from by ring]
      cases hA : acosOpt (Real.sin x * tt) with
      | none => rfl
      | some a =>
          dsimp only
          rw [show r - 1 * a / f = r - a / f from by ring]
          split
          · rfl
          · exact ih _

/-- Counterexample for C1: the code's per-house tag table is
`(10, 11, 1, 2)` — the 0-based indices of houses 11, 12, 2 and 3 — not
`(11, 12, 2, 3)` as the claim states; and combined with the claim's sign
rule (`k = −1` exactly when the tag is in `{10, 11}`) the claimed table
would give the second (house-12) equation the sign `k = +1`, whereas the
code gives its second entry (tag 11) `k = −1`. -/
theorem placidus_args_counterexample :
    _PLACIDUS_ARGS.map (fun a => a.1) = [10, 11, 1, 2]
    ∧ ¬(_PLACIDUS_ARGS.map (fun a => a.1) = [11, 12, 2, 3])
    ∧ _PLACIDUS_ARGS.map (fun a => specKSign a.1) = [-1, -1, 1, 1]
    ∧ [11, 12, 2, 3].map specKSign = [-1, 1, 1, 1]
    ∧ ¬(_PLACIDUS_ARGS.map (fun a => specKSign a.1)
        = [11, 12, 2, 3].map specKSign) := by
  have h1 : _PLACIDUS_ARGS.map (fun a => a.1) = [10, 11, 1, 2] := rfl
  have h3 : _PLACIDUS_ARGS.map (fun a => specKSign a.1) = [-1, -1, 1, 1] :=
    rfl
  exact ⟨h1, by rw [h1]; decide, h3, by decide, by rw [h3]; decide⟩

/-- C1 (amended): `placidus_cusps` computes exactly the spec-side
description with the corrected table — for the base houses 11, 12, 2, 3 in
order, divisors (3, 1.5, 1.5, 3) and seeds `ramc` + (30°, 60°, 120°,
150°), with `k = −1, r = ramc` for the first two equations and `k = +1,
r = ramc + π` for the last two, iterating `x = r ∓ acos(k·sin x·tanθ·tanε)
/ f` until two successive values differ (shortest-arc) by less than `1e-4`
radians and projecting each converged angle through
`atan2(sin x, cos ε·cos x)` reduced to `[0, 2π)`. -/
theorem placidus_cusps_eq_spec :
    ∀ (fuel : ℕ) (ramc eps theta : ℝ),
      placidus_cusps fuel ramc eps theta
        = spec_placidus_cusps fuel ramc eps theta := by
  intro fuel ramc eps theta
  unfold placidus_cusps spec_placidus_cusps _PLACIDUS_ARGS _R30 _R60 _R120
    _R150
  simp only [List.mapM_cons, List.mapM_nil]
  norm_num
  rw [plac_loop_neg_eq, plac_loop_neg_eq, plac_loop_pos_eq, plac_loop_pos_eq]
  cases h1 : spec_plac_iter_neg ramc 3 (Real.tan theta * Real.tan eps) fuel
      (Real.pi / 6 + ramc) with
  | error e => rfl
  | ok c11 =>
      cases h2 : spec_plac_iter_neg ramc (3 / 2)
          (Real.tan theta * Real.tan eps) fuel (Real.pi / 3 + ramc) with
      | error e => rfl
      | ok c12 =>
          cases h3 : spec_plac_iter_pos (ramc + Real.pi) (3 / 2)
              (Real.tan theta * Real.tan eps) fuel
              (2 * Real.pi / 3 + ramc) with
          | error e => rfl
          | ok c2 =>
              cases h4 : spec_plac_iter_pos (ramc + Real.pi) 3
                  (Real.tan theta * Real.tan eps) fuel
                  (5 * Real.pi / 6 + ramc) with
              | error e => rfl
              | ok c3 => rfl

theorem plac_step_of_acos {k r f tt x a : ℝ}
    (h : acosOpt (k * Real.sin x * tt) = some a) :
    plac_step k r f tt x = some (r - k * a / f) := by
  unfold plac_step
  rw [h]
  rfl

theorem plac_orbit_succ_of_step {k r f tt x0 x1 : ℝ}
    (h : plac_step k r f tt x0 = some x1) :
    ∀ m, plac_orbit k r f tt x0 (m + 1) = plac_orbit k r f tt x1 m := by
  intro m
  induction m with
  | zero => simp [plac_orbit, h]
  | succ m ih =>
      show (plac_orbit k r f tt x0 (m + 1)).bind _ = _
      rw [ih]
      rfl

theorem plac_orbit_succ_inv {k r f tt x0 : ℝ} :
    ∀ (m : ℕ) (x : ℝ), plac_orbit k r f tt x0 (m + 1) = some x →
      ∃ x1, plac_step k r f tt x0 = some x1
        ∧ plac_orbit k r f tt x1 m = some x := by
  intro m
  induction m with
  | zero =>
      intro x h
      simp only [plac_orbit, Option.some_bind] at h
      exact ⟨x, h, rfl⟩
  | succ m ih =>
      intro x h
      rw [show plac_orbit k r f tt x0 (m + 1 + 1)
          = (plac_orbit k r f tt x0 (m + 1)).bind (plac_step k r f tt)
          from rfl] at h
      cases hw : plac_orbit k r f tt x0 (m + 1) with
      | none => rw [hw] at h; cases h
      | some w =>
          rw [hw, Option.some_bind] at h
          obtain ⟨x1, hs, ho⟩ := ih w hw
          refine ⟨x1, hs, ?_⟩
          rw [show plac_orbit k r f tt x1 (m + 1)
              = (plac_orbit k r f tt x1 m).bind (plac_step k r f tt)
              from rfl, ho, Option.some_bind]
          exact h

theorem plac_loop_ok_orbit {k r f tt : ℝ} :
    ∀ (n : ℕ) (x0 y : ℝ), plac_loop k r f tt n x0 = .ok y →
      ∃ m x z, plac_orbit k r f tt x0 m = some x
        ∧ plac_step k r f tt x = some z
        ∧ |shortest_arc_rad z x| < _PLAC_DELTA := by
  intro n
  induction n with
  | zero => intro x0 y h; cases h
  | succ n ih =>
      intro x0 y h
      simp only [plac_loop] at h
      cases hA : acosOpt (k * Real.sin x0 * tt) with
      | none => rw [hA] at h; cases h
      | some a =>
          rw [hA] at h
          dsimp only at h
          by_cases hc : |shortest_arc_rad (r - k * a / f) x0| < _PLAC_DELTA
          · exact ⟨0, x0, r - k * a / f, rfl, plac_step_of_acos hA, hc⟩
          · rw [if_neg hc] at h
            obtain ⟨m, x, z, ho, hs, hcv⟩ := ih _ _ h
            refine ⟨m + 1, x, z, ?_, hs, hcv⟩
            rw [plac_orbit_succ_of_step (plac_step_of_acos hA)]
            exact ho

theorem plac_orbit_conv_loop {k r f tt : ℝ} :
    ∀ (m : ℕ) (x0 x z : ℝ), plac_orbit k r f tt x0 m = some x →
      plac_step k r f tt x = some z →
      |shortest_arc_rad z x| < _PLAC_DELTA →
      ∃ n y, plac_loop k r f tt n x0 = .ok y := by
  intro m
  induction m with
  | zero =>
      intro x0 x z ho hs hc
      cases Option.some.inj ho
      unfold plac_step at hs
      cases hA : acosOpt (k * Real.sin x0 * tt) with
      | none => rw [hA] at hs; cases hs
      | some a =>
          rw [hA, Option.map_some'] at hs
          have hz := Option.some.inj hs
          refine ⟨1, x0, ?_⟩
          simp only [plac_loop]
          rw [hA]
          dsimp only
          rw [if_pos (by rw [hz]; exact hc)]
  | succ m ih =>
      intro x0 x z ho hs hc
      obtain ⟨x1, hs0, ho1⟩ := plac_orbit_succ_inv m x ho
      obtain ⟨n, y, hl⟩ := ih x1 x z ho1 hs hc
      unfold plac_step at hs0
      cases hA : acosOpt (k * Real.sin x0 * tt) with
      | none => rw [hA] at hs0; cases hs0
      | some a =>
          rw [hA, Option.map_some'] at hs0
          have hx1 := Option.some.inj hs0
          by_cases hcc : |shortest_arc_rad (r - k * a / f) x0| < _PLAC_DELTA
          · refine ⟨1, x0, ?_⟩
            simp only [plac_loop]
            rw [hA]
            dsimp only
            rw [if_pos hcc]
          · refine ⟨n + 1, y, ?_⟩
            simp only [plac_loop]
            rw [hA]
            dsimp only
            rw [if_neg hcc, hx1]
            exact hl

theorem plac_loop_timeout_of_noexit {k r f tt : ℝ} :
    ∀ (n : ℕ) (x0 : ℝ),
      (∀ m x, plac_orbit k r f tt x0 m = some x →
        ∃ z, plac_step k r f tt x = some z
          ∧ ¬|shortest_arc_rad z x| < _PLAC_DELTA) →
      plac_loop k r f tt n x0 = .error .noConverge := by
  intro n
  induction n with
  | zero => intro x0 _; rfl
  | succ n ih =>
      intro x0 hno
      obtain ⟨z, hs, hnc⟩ := hno 0 x0 rfl
      unfold plac_step at hs
      cases hA : acosOpt (k * Real.sin x0 * tt) with
      | none => rw [hA] at hs; cases hs
      | some a =>
          rw [hA, Option.map_some'] at hs
          have hz := Option.some.inj hs
          simp only [plac_loop]
          rw [hA]
          dsimp only
          rw [if_neg (by rw [hz]; exact hnc)]
          apply ih
          intro m x ho
          apply hno (m + 1)
          rw [plac_orbit_succ_of_step (plac_step_of_acos hA)]
          exact ho

theorem plac_orbit_err_loop {k r f tt : ℝ} :
    ∀ (m : ℕ) (x0 x : ℝ), plac_orbit k r f tt x0 m = some x →
      plac_step k r f tt x = none →
      ∃ n, plac_loop k r f tt n x0 ≠ .error .noConverge := by
  intro m
  induction m with
  | zero =>
      intro x0 x ho hs
      cases Option.some.inj ho
      unfold plac_step at hs
      cases hA : acosOpt (k * Real.sin x0 * tt) with
      | some a => rw [hA, Option.map_some'] at hs; cases hs
      | none =>
          refine ⟨1, ?_⟩
          simp only [plac_loop]
          rw [hA]
          simp
  | succ m ih =>
      intro x0 x ho hs
      obtain ⟨x1, hs0, ho1⟩ := plac_orbit_succ_inv m x ho
      obtain ⟨n, hn⟩ := ih x1 x ho1 hs
      unfold plac_step at hs0
      cases hA : acosOpt (k * Real.sin x0 * tt) with
      | none => rw [hA] at hs0; cases hs0
      | some a =>
          rw [hA, Option.map_some'] at hs0
          have hx1 := Option.some.inj hs0
          by_cases hcc : |shortest_arc_rad (r - k * a / f) x0| < _PLAC_DELTA
          · refine ⟨1, ?_⟩
            simp only [plac_loop]
            rw [hA]
            dsimp only
            rw [if_pos hcc]
            simp
          · refine ⟨n + 1, ?_⟩
            simp only [plac_loop]
            rw [hA]
            dsimp only
            rw [if_neg hcc, hx1]
            exact hn

/-- C4 (amended): the Placidus loop has no iteration cap — with any amount
of fuel it reports normal completion only on the convergence test.  It
completes normally (for some fuel) iff some reachable iterate's next step
stays in the `acos` domain and moves by less than `1e-4` radians
(shortest-arc); and it exhausts every fuel bound — i.e. the Python loop
runs forever — iff every reachable iterate steps successfully but never
within `1e-4`.  (When an iterate leaves the `acos` domain the call instead
terminates with the `ValueError` of `math.acos`, which the original claim
overlooks.) -/
theorem plac_loop_termination_characterisation :
    ∀ (k r f tt x0 : ℝ),
      ((∃ n y, plac_loop k r f tt n x0 = .ok y) ↔
        (∃ m x z, plac_orbit k r f tt x0 m = some x
          ∧ plac_step k r f tt x = some z
          ∧ |shortest_arc_rad z x| < _PLAC_DELTA))
      ∧ ((∀ n, plac_loop k r f tt n x0 = .error .noConverge) ↔
        (∀ m x, plac_orbit k r f tt x0 m = some x →
          ∃ z, plac_step k r f tt x = some z
            ∧ ¬|shortest_arc_rad z x| < _PLAC_DELTA)) := by
  intro k r f tt x0
  constructor
  · constructor
    · rintro ⟨n, y, h⟩
      exact plac_loop_ok_orbit n x0 y h
    · rintro ⟨m, x, z, ho, hs, hc⟩
      exact plac_orbit_conv_loop m x0 x z ho hs hc
  · constructor
    · intro hall m x ho
      cases hstep : plac_step k r f tt x with
      | none =>
          obtain ⟨n, hn⟩ := plac_orbit_err_loop m x0 x ho hstep
          exact absurd (hall n) hn
      | some z =>
          by_cases hc : |shortest_arc_rad z x| < _PLAC_DELTA
          · obtain ⟨n, y, hl⟩ := plac_orbit_conv_loop m x0 x z ho hstep hc
            have := hall n
            rw [hl] at this
            cases this
          · exact ⟨z, rfl, hc⟩
    · intro hno n
      exact plac_loop_timeout_of_noexit n x0 hno

/-- Witness for C4: the characterisation applied at concrete parameters. -/
theorem plac_loop_termination_characterisation_witness :
    ((∃ n y, plac_loop (-1) 0 3 0 n 0 = .ok y) ↔
      (∃ m x z, plac_orbit (-1) 0 3 0 0 m = some x
        ∧ plac_step (-1) 0 3 0 x = some z
        ∧ |shortest_arc_rad z x| < _PLAC_DELTA))
    ∧ ((∀ n, plac_loop (-1) 0 3 0 n 0 = .error .noConverge) ↔
      (∀ m x, plac_orbit (-1) 0 3 0 0 m = some x →
        ∃ z, plac_step (-1) 0 3 0 x = some z
          ∧ ¬|shortest_arc_rad z x| < _PLAC_DELTA)) :=
  plac_loop_termination_characterisation (-1) 0 3 0 0

/-- Counterexample for C4: at `ramc = ε = θ = 60°` the Placidus call
terminates on its very first iteration with the `acos` domain error
(`tan 60° · tan 60° = 3`, and the house-11 seed `30° + ramc = 90°` makes
the `acos` argument `−3`), so `placidus_cusps` neither converges nor loops
forever there — contradicting "the loop exits only when two successive
values differ by less than 1e-4". -/
theorem placidus_terminates_by_domain_error :
    plac_loop (-1) (Real.pi / 3) 3 3 1 (Real.pi / 2) = .error .acosDomain
    ∧ placidus_cusps 1 (Real.pi / 3) (Real.pi / 3) (Real.pi / 3)
        = .error .acosDomain := by
  have hA : acosOpt ((-1 : ℝ) * Real.sin (Real.pi / 2) * 3) = none := by
    rw [Real.sin_pi_div_two]
    unfold acosOpt
    rw [if_pos]
    left
    norm_num
  have hloop : plac_loop (-1) (Real.pi / 3) 3 3 1 (Real.pi / 2)
      = .error .acosDomain := by
    simp only [plac_loop]
    rw [hA]
  refine ⟨hloop, ?_⟩
  have htan : Real.tan (Real.pi / 3) * Real.tan (Real.pi / 3) = 3 := by
    have h3 : Real.tan (Real.pi / 3) = Real.sqrt 3 := by
      rw [Real.tan_eq_sin_div_cos, Real.sin_pi_div_three,
        Real.cos_pi_div_three]
      ring
    rw [h3]
    exact Real.mul_self_sqrt (by norm_num)
  unfold placidus_cusps _PLACIDUS_ARGS
  simp only [List.mapM_cons]
  dsimp only
  rw [htan, show _R30 + Real.pi / 3 = Real.pi / 2 from by unfold _R30; ring]
  simp only [true_or, or_true, if_true]
  rw [hloop]
  rfl

end Astrologer
